import Mathlib

/-!
# PAC-seeder: the DNS answer cache, the report order, the dumper schedule,
# the crawler back-off and the command-line parser of `main.cpp`

A shallow embedding of the functions of `src/main.cpp`:

* `CDnsThread::cacheHit`, the `CDnsThread` constructor and `GetIPList`
  (the per-thread DNS answer cache and its sampling loop),
* `StatCompare` (the order of the dump),
* the sleep schedule of `ThreadDumper`,
* the empty-queue branch of `ThreadCrawler`,
* `CDnsSeedOpts::ParseCommandLine` and the wipe step of `main`.

Conventions.  `unsigned int` values are naturals reduced modulo `2^32`,
`size_t` and `uint64_t` values naturals reduced modulo `2^64`, `int` values
are integers; the conversions the C++ performs implicitly are written out
(`u32`, `toInt32`).  Library calls whose results the program consumes
(`time`, `rand`, `strtol`, `getopt_long`, `db.GetIPs`, `db.GetMany`) are
parameters.  Undefined behaviour (division by zero, an index outside the
vector) and a loop that does not stop within its fuel are results of type
`Fault`.
-/

namespace PACSeeder

/-! ## Data model -/

/-- Modelled from the spec: the `addr_t` of `dns.h` is not part of the
sources at hand.  It is the pair of the family tag `v` (4 or 6) and the
address bytes of the union `data` (4 bytes for `v4`, 16 for `v6`). -/
structure addr_t where
  v : Int
  data : List Nat
deriving DecidableEq, Repr, Inhabited

/-- Modelled from the spec: the `CNetAddr` of `netbase.h` is not part of the
sources at hand; only the two accessors `cacheHit` calls are kept.
`inAddr` is `some bytes` when `GetInAddr(&addr)` returns true (filling the 4
bytes), `in6Addr` likewise for `GetIn6Addr(&addr6)` (16 bytes). -/
structure CNetAddr where
  inAddr : Option (List Nat)
  in6Addr : Option (List Nat)
deriving DecidableEq, Repr, Inhabited

/-- The fields of `CDnsThread` that `cacheHit` and `GetIPList` read or
write.  `nIPv4` and `nIPv6` are `int` counters that are only ever set to 0
and incremented; `cacheHits` is an `unsigned int`, `dbQueries` a
`uint64_t`, `cacheTime` a `time_t`. -/
structure CDnsThread where
  cache : List addr_t
  nIPv4 : Nat
  nIPv6 : Nat
  cacheTime : Int
  cacheHits : Nat
  dbQueries : Nat
deriving DecidableEq, Repr, Inhabited

/-- Conversion of an `int` to `unsigned int`. -/
def u32 (x : Int) : Int := x % 4294967296

/-- Conversion of an `unsigned int` or a `long` to `int` (two's
complement), as in `max = size` and `int n = strtol(...)`. -/
def toInt32 (x : Int) : Int := (x + 2147483648) % 4294967296 - 2147483648

/-- Ways in which a run of the sampling loop can fail to produce a
result. -/
inductive Fault where
  | divByZero
  | outOfBounds
  | outOfFuel
deriving DecidableEq, Repr

/-! ## `CDnsThread::cacheHit` -/

/-- One iteration of the rebuild loop of `cacheHit` (lines 201-217): an
address with an IPv4 form is pushed with `v = 4`, otherwise one with an IPv6
form is pushed with `v = 6`, otherwise nothing is pushed. -/
def rebuildStep (t : CDnsThread) (ip : CNetAddr) : CDnsThread :=
  match ip.inAddr with
  | some b => { t with cache := t.cache ++ [⟨4, b⟩], nIPv4 := t.nIPv4 + 1 }
  | none =>
    match ip.in6Addr with
    | some b => { t with cache := t.cache ++ [⟨6, b⟩], nIPv6 := t.nIPv6 + 1 }
    | none => t

/-- The test of line 193 on the already incremented hit counter `hits`:
`force || cacheHits > size*size/400 ||
 (cacheHits*cacheHits > size/20 && now - cacheTime > 5)`.
`cache.size()` is a `size_t`, so `size*size` is reduced modulo `2^64`;
`cacheHits*cacheHits` is an `unsigned int` product, reduced modulo
`2^32`. -/
def refreshDue (force : Bool) (hits size : Nat) (now cacheTime : Int) : Bool :=
  force
    || decide (hits > (size * size % 18446744073709551616) / 400)
    || (decide (hits * hits % 4294967296 > size / 20) && decide (now - cacheTime > 5))

/-- The method `CDnsThread::cacheHit(force)` (lines 185-221).  `now` is the
value of `time(NULL)`; `GetIPs max v4 v6` is what `db.GetIPs(ips, max, nets)`
puts into the set `ips`, in the set's iteration order (`CAddrDb` is not part
of the sources at hand, so the database is a parameter). -/
def CDnsThread.cacheHit (s : CDnsThread) (force : Bool) (now : Int)
    (GetIPs : Nat → Bool → Bool → List CNetAddr) : CDnsThread :=
  let hits := (s.cacheHits + 1) % 4294967296
  if refreshDue force hits (s.cache.length % 18446744073709551616) now s.cacheTime then
    let ips := GetIPs 1000 true true
    let t := ips.foldl rebuildStep
      { s with cacheHits := hits, dbQueries := (s.dbQueries + 1) % 18446744073709551616,
               cache := [], nIPv4 := 0, nIPv6 := 0 }
    { t with cacheHits := 0, cacheTime := now }
  else
    { s with cacheHits := hits }

/-- The constructor `CDnsThread::CDnsThread` (lines 223-240): it empties
the cache, zeroes the counters and the cache time, then calls
`cacheHit(true)`. -/
def CDnsThread.init (now : Int) (GetIPs : Nat → Bool → Bool → List CNetAddr) : CDnsThread :=
  CDnsThread.cacheHit
    { cache := [], nIPv4 := 0, nIPv6 := 0, cacheTime := 0, cacheHits := 0, dbQueries := 0 }
    true now GetIPs

/-! ## `GetIPList` -/

/-- The test `ok` of lines 260-261. -/
def requested (ipv4 ipv6 : Bool) (a : addr_t) : Bool :=
  (ipv4 && decide (a.v = 4)) || (ipv6 && decide (a.v = 6))

/-- The inner `do ... while(1)` of lines 259-266, started at index `j`:
it stops at the first index whose entry has a requested family, stepping
`j++` and wrapping from `size` back to `i`.  Each probe of `cache[j]` uses
one unit of fuel. -/
def scan (cache : List addr_t) (size i : Nat) (ipv4 ipv6 : Bool) :
    Nat → Nat → Except Fault Nat
  | 0, _ => .error .outOfFuel
  | fuel + 1, j =>
    match cache[j]? with
    | none => .error .outOfBounds
    | some a =>
      if requested ipv4 ipv6 a then .ok j
      else scan cache size i ipv4 ipv6 fuel (if j + 1 = size then i else j + 1)

/-- The start index of line 258, `i + rand() % (size - i)`, for the value
`r` returned by `rand()`.  The loop only runs with `i < max <= size`, where
the unsigned difference `size - i` is the difference of naturals. -/
def startIndex (size i r : Nat) : Except Fault Nat :=
  if size - i = 0 then .error .divByZero else .ok (i + r % (size - i))

/-- The three assignments of lines 267-269 for the index `j` found by the
scan: `addr[i] = cache[j]; cache[j] = cache[i]; cache[i] = addr[i]`.  The
result is the new cache and the entry written to `addr[i]`. -/
def swapOut (cache : List addr_t) (i j : Nat) : Except Fault (List addr_t × addr_t) :=
  match cache[j]?, cache[i]? with
  | some aj, some ai => .ok ((cache.set j ai).set i aj, aj)
  | _, _ => .error .outOfBounds

/-- One pass through the body of the outer `while` (lines 258-270) at
index `i`, with `r` the value of this pass's `rand()` call. -/
def drawStep (fuel size : Nat) (ipv4 ipv6 : Bool) (r i : Nat) (cache : List addr_t) :
    Except Fault (List addr_t × addr_t) :=
  match startIndex size i r with
  | .error e => .error e
  | .ok j0 =>
    match scan cache size i ipv4 ipv6 fuel j0 with
    | .error e => .error e
    | .ok j => swapOut cache i j

/-- The outer `while (i < max)` of lines 257-271 with `todo = max - i`
passes left; `rand k` is the value of the `k`-th call of `rand()` made by
this call of `GetIPList`, and `addr` holds the entries `addr[0..i)` written
so far. -/
def drawLoop (fuel size : Nat) (ipv4 ipv6 : Bool) (rand : Nat → Nat) :
    Nat → Nat → List addr_t → List addr_t → Except Fault (List addr_t × List addr_t)
  | 0, _, cache, addr => .ok (cache, addr)
  | todo + 1, i, cache, addr =>
    match drawStep fuel size ipv4 ipv6 (rand i) i cache with
    | .error e => .error e
    | .ok (cache1, a) => drawLoop fuel size ipv4 ipv6 rand todo (i + 1) cache1 (addr ++ [a])

/-- Lines 250-255: `size`, `maxmax` and the two clamps of `max`.  Both
comparisons are between the `int` `max` and an `unsigned int`, so `max` is
converted to unsigned first, and the `unsigned int` assigned to `max` is
converted back. -/
def clampMax (t : CDnsThread) (max : Int) (ipv4 ipv6 : Bool) : Int :=
  let size : Nat := t.cache.length % 4294967296
  let maxmax : Nat := ((if ipv4 then t.nIPv4 else 0) + (if ipv6 then t.nIPv6 else 0)) % 4294967296
  let max1 : Int := if u32 max > size then toInt32 size else max
  if u32 max1 > maxmax then toInt32 maxmax else max1

/-- The outcome of a call of `GetIPList`: the thread afterwards, the entries
written to `addr[0..n)` and the return value `n`. -/
structure IPListResult where
  thread : CDnsThread
  addr : List addr_t
  ret : Int
deriving DecidableEq, Repr

/-- The body of `GetIPList` after the call `thread->cacheHit()`, on the
thread `t` as that call left it (lines 250-272). -/
def sampleCache (fuel : Nat) (t : CDnsThread) (max : Int) (ipv4 ipv6 : Bool)
    (rand : Nat → Nat) : Except Fault IPListResult :=
  let size : Nat := t.cache.length % 4294967296
  let n := clampMax t max ipv4 ipv6
  match drawLoop fuel size ipv4 ipv6 rand n.toNat 0 t.cache [] with
  | .error e => .error e
  | .ok (cache1, addr) => .ok { thread := { t with cache := cache1 }, addr := addr, ret := n }

/-- The function `GetIPList(data, addr, max, ipv4, ipv6)` (lines 247-273):
the refresh check `cacheHit()` followed by the sampling loop. -/
def GetIPList (fuel : Nat) (s : CDnsThread) (now : Int)
    (GetIPs : Nat → Bool → Bool → List CNetAddr) (max : Int) (ipv4 ipv6 : Bool)
    (rand : Nat → Nat) : Except Fault IPListResult :=
  sampleCache fuel (s.cacheHit false now GetIPs) max ipv4 ipv6 rand

/-- The counters of a thread agree with its cache: `nIPv4` is the number of
entries with `v == 4` and `nIPv6` the number with `v == 6`. -/
def Consistent (t : CDnsThread) : Prop :=
  t.nIPv4 = t.cache.countP (fun a => decide (a.v = 4)) ∧
  t.nIPv6 = t.cache.countP (fun a => decide (a.v = 6))

instance (t : CDnsThread) : Decidable (Consistent t) := by
  unfold Consistent; infer_instance

/-! ## The invariant of the sampling loop -/

/-- The invariant of the outer loop of `GetIPList` before the pass at index
`i`, relative to the cache `c0` the loop started from: the cache is a
rearrangement of `c0`, `addr` is its front part of length `i`, every entry
of `addr` has a requested family, and `pos` records for each slot of the
cache the position of `c0` its entry came from. -/
structure LoopInv (c0 : List addr_t) (ipv4 ipv6 : Bool) (i : Nat)
    (cache addr : List addr_t) (pos : List Nat) : Prop where
  len : cache.length = c0.length
  bound : i ≤ cache.length
  perm : cache.Perm c0
  front : addr = cache.take i
  req : ∀ a ∈ addr, requested ipv4 ipv6 a = true
  posPerm : pos.Perm (List.range c0.length)
  posMap : cache.map some = pos.map (fun p => c0[p]?)

/-- The number of entries of a requested family, as `GetIPList` computes it
from the two counters. -/
def wanted (t : CDnsThread) (ipv4 ipv6 : Bool) : Nat :=
  (if ipv4 then t.nIPv4 else 0) + (if ipv6 then t.nIPv6 else 0)

/-! ## The cache invariant and the reachable states -/

/-- The entry `rebuildStep` pushes for an address, if any. -/
def toAddr (ip : CNetAddr) : Option addr_t :=
  match ip.inAddr with
  | some b => some ⟨4, b⟩
  | none =>
    match ip.in6Addr with
    | some b => some ⟨6, b⟩
    | none => none

/-- Every entry is tagged 4 or 6 and the two counters count them. -/
def CacheInv (t : CDnsThread) : Prop :=
  (∀ a ∈ t.cache, a.v = 4 ∨ a.v = 6) ∧ Consistent t

/-- The states of a `CDnsThread` that a run of the program can reach: the
constructor's, and from there by calls of `cacheHit` (forced or not) and of
`GetIPList` with `max >= 0`, whatever the clock, the database and `rand()`
return. -/
inductive Reachable : CDnsThread → Prop where
  | init (now : Int) (GetIPs : Nat → Bool → Bool → List CNetAddr) :
      Reachable (CDnsThread.init now GetIPs)
  | cacheHit (s : CDnsThread) (force : Bool) (now : Int)
      (GetIPs : Nat → Bool → Bool → List CNetAddr) :
      Reachable s → Reachable (s.cacheHit force now GetIPs)
  | getIPList (s : CDnsThread) (fuel : Nat) (now : Int)
      (GetIPs : Nat → Bool → Bool → List CNetAddr) (max : Int) (ipv4 ipv6 : Bool)
      (rand : Nat → Nat) (r : IPListResult) :
      Reachable s → 0 ≤ max →
      GetIPList fuel s now GetIPs max ipv4 ipv6 rand = .ok r → Reachable r.thread

/-! ## The value ranges of the cache -/

/-- The ranges the fields of a thread stay in when the database honours the
limit of 1000 it is asked for: at most 1000 cached entries, and a hit counter
that a refresh has not yet reset, so at most `size*size/400`. -/
def InRange (s : CDnsThread) : Prop :=
  s.cache.length ≤ 1000 ∧ s.cacheHits ≤ s.cache.length * s.cache.length / 400

/-- The reachable states when the database keeps the contract of `GetIPs`
("return up to `max` eligible endpoints"): as `Reachable`, with every answer
to `GetIPs(1000, ...)` holding at most 1000 addresses. -/
inductive ReachableLimited : CDnsThread → Prop where
  | init (now : Int) (GetIPs : Nat → Bool → Bool → List CNetAddr) :
      (GetIPs 1000 true true).length ≤ 1000 →
      ReachableLimited (CDnsThread.init now GetIPs)
  | cacheHit (s : CDnsThread) (force : Bool) (now : Int)
      (GetIPs : Nat → Bool → Bool → List CNetAddr) :
      ReachableLimited s → (GetIPs 1000 true true).length ≤ 1000 →
      ReachableLimited (s.cacheHit force now GetIPs)
  | getIPList (s : CDnsThread) (fuel : Nat) (now : Int)
      (GetIPs : Nat → Bool → Bool → List CNetAddr) (max : Int) (ipv4 ipv6 : Bool)
      (rand : Nat → Nat) (r : IPListResult) :
      ReachableLimited s → (GetIPs 1000 true true).length ≤ 1000 → 0 ≤ max →
      GetIPList fuel s now GetIPs max ipv4 ipv6 rand = .ok r → ReachableLimited r.thread

/-! ## Concrete data -/

/-- A database answer of 3 addresses with an IPv4 form and 5 with only an
IPv6 form. -/
def db35 : Nat → Bool → Bool → List CNetAddr := fun _ _ _ =>
  [⟨none, some [1]⟩, ⟨some [2], some [2]⟩, ⟨none, some [3]⟩, ⟨none, some [4]⟩,
   ⟨some [5], some [5]⟩, ⟨none, some [6]⟩, ⟨some [7], some [7]⟩, ⟨none, some [8]⟩]

/-- The thread the constructor builds over `db35`. -/
def thread35 : CDnsThread := CDnsThread.init 0 db35

/-- A sequence of `rand()` values. -/
def rand35 : Nat → Nat := fun k => 7 * k + 3

/-- A thread with 100 cached entries (so that `size*size/400 = 25` and
`size/20 = 5`), 2 hits so far and a cache filled at time 1000. -/
def thread100 : CDnsThread :=
  { cache := List.replicate 100 ⟨4, [0]⟩, nIPv4 := 100, nIPv6 := 0, cacheTime := 1000,
    cacheHits := 2, dbQueries := 1 }

/-! ## The refresh condition of the specification -/

/-- The refresh condition in the words of the specification, over unbounded
numbers: forced, or `h > s*s/400`, or `h*h > s/20` and more than 5 seconds
since the cache was filled; `h` is the hit counter including the current
query, `s` the cache size and `age` is `now - cacheTime`. -/
def specRefresh (force : Bool) (h s : Nat) (age : Int) : Prop :=
  force = true ∨ h > s * s / 400 ∨ (h * h > s / 20 ∧ age > 5)

instance (force : Bool) (h s : Nat) (age : Int) : Decidable (specRefresh force h s age) := by
  unfold specRefresh; infer_instance

/-- The result of `GetIPList(max = 2, v4, v6)` on `thread35` at time 10 with
the values `rand35`. -/
def result35 : IPListResult :=
  { thread :=
      { cache := [⟨6, [4]⟩, ⟨4, [5]⟩, ⟨6, [3]⟩, ⟨6, [1]⟩, ⟨4, [2]⟩, ⟨6, [6]⟩, ⟨4, [7]⟩, ⟨6, [8]⟩],
        nIPv4 := 3, nIPv6 := 5, cacheTime := 10, cacheHits := 0, dbQueries := 2 },
    addr := [⟨6, [4]⟩, ⟨4, [5]⟩],
    ret := 2 }

/-! ## `StatCompare` -/

/-- Modelled from the spec: the `CAddrReport` of `db.h` is not part of the
sources at hand.  Kept are the fields `StatCompare` reads: the five uptime
figures (index 3 is the 7-day window, index 4 the 30-day window) and
`clientVersion`.  The uptimes are values of a linearly ordered type `U`. -/
structure CAddrReport (U : Type) where
  uptime : Fin 5 → U
  clientVersion : Int

/-- The function `StatCompare(a, b)` (lines 282-292); the result is the
truth value of the returned `int`. -/
def StatCompare {U : Type} [LinearOrder U] (a b : CAddrReport U) : Bool :=
  if a.uptime 4 = b.uptime 4 then
    if a.uptime 3 = b.uptime 3 then
      decide (a.clientVersion > b.clientVersion)
    else
      decide (a.uptime 3 > b.uptime 3)
  else
    decide (a.uptime 4 > b.uptime 4)

/-- The sort key of a report: 30-day uptime, then 7-day uptime, then client
version, compared lexicographically. -/
def reportKey {U : Type} (a : CAddrReport U) : Lex (U × Lex (U × Int)) :=
  toLex (a.uptime 4, toLex (a.uptime 3, a.clientVersion))

/-- A report with 30-day uptime 1/2, 7-day uptime 3/4 and the given client
version; the other windows are 1. -/
def report (clientVersion : Int) : CAddrReport Rat :=
  { uptime := fun w => if w = 4 then 1 / 2 else if w = 3 then 3 / 4 else 1,
    clientVersion := clientVersion }

/-! ## The sleep schedule of `ThreadDumper` -/

/-- The argument of `Sleep` on line 297, `100000 << count`, for a count that
is not negative. -/
def ThreadDumper_sleep (count : Int) : Int := ((100000 <<< count.toNat : Nat) : Int)

/-- Lines 298-299: `if (count < 5) count++`. -/
def ThreadDumper_next (count : Int) : Int := if count < 5 then count + 1 else count

/-- The value of `count` at the start of cycle `k` of the loop of
`ThreadDumper` (cycles counted from 0); it starts at 0 (line 295). -/
def ThreadDumper_count : Nat → Int
  | 0 => 0
  | k + 1 => ThreadDumper_next (ThreadDumper_count k)

/-! ## `CDnsSeedOpts::ParseCommandLine` -/

/-- The class `CDnsSeedOpts` (lines 18-31); a null `const char *` is
`none`. -/
structure CDnsSeedOpts where
  nThreads : Int
  nPort : Int
  nDnsThreads : Int
  fUseTestNet : Int
  fWipeBan : Int
  fWipeIgnore : Int
  mbox : Option String
  ns : Option String
  host : Option String
  tor : Option String
  ipv4_proxy : Option String
  ipv6_proxy : Option String
deriving DecidableEq, Repr

/-- The constructor of `CDnsSeedOpts` (line 33). -/
def CDnsSeedOpts.default : CDnsSeedOpts :=
  { nThreads := 96, nDnsThreads := 4, nPort := 53, mbox := none, ns := none, host := none,
    tor := none, fUseTestNet := 0, fWipeBan := 0, fWipeIgnore := 0, ipv4_proxy := none,
    ipv6_proxy := none }

/-- The `int` members of `CDnsSeedOpts` a `flag` pointer of the table
`long_options` can point to. -/
inductive FlagVar where
  | fUseTestNet
  | fWipeBan
  | fWipeIgnore
deriving DecidableEq, Repr

/-- One `struct option` of `getopt.h`: name, whether an argument is
required, the `flag` pointer (`none` for the null pointer) and `val`. -/
structure LongOption where
  name : String
  has_arg : Bool
  flag : Option FlagVar
  val : Int
deriving DecidableEq, Repr

/-- The code of a character, as the `int` that `getopt_long` returns. -/
def chr (c : Char) : Int := (c.toNat : Int)

/-- The table `long_options` of lines 57-72, without its terminating zero
entry. -/
def long_options : List LongOption :=
  [ ⟨"host", true, none, chr 'h'⟩,
    ⟨"ns", true, none, chr 'n'⟩,
    ⟨"mbox", true, none, chr 'm'⟩,
    ⟨"threads", true, none, chr 't'⟩,
    ⟨"dnsthreads", true, none, chr 'd'⟩,
    ⟨"port", true, none, chr 'p'⟩,
    ⟨"onion", true, none, chr 'o'⟩,
    ⟨"proxyipv4", true, none, chr 'i'⟩,
    ⟨"proxyipv6", true, none, chr 'k'⟩,
    ⟨"testnet", false, some FlagVar.fUseTestNet, 1⟩,
    ⟨"wipeban", false, some FlagVar.fWipeBan, 1⟩,
    ⟨"wipeignore", false, some FlagVar.fWipeBan, 1⟩,
    ⟨"help", false, none, chr '?'⟩ ]

/-- What one call of the library function `getopt_long` finds on the command
line: a short option of the option string `"h:n:m:t:p:d:o:i:k:?"` with its
argument, the long option `long_options[index]` with its argument, or an
element it rejects (an option it does not know, or one whose required
argument is missing).  The list of these finds, in order, stands for the
command line; after the last one `getopt_long` returns -1. -/
inductive GetoptFind where
  | shortOpt (c : Char) (optarg : String)
  | longOpt (index : Fin 13) (optarg : String)
  | rejected
deriving DecidableEq, Repr

/-- The store `*flag = val` that `getopt_long` performs for a long option
with a non-null `flag`. -/
def storeFlag (o : CDnsSeedOpts) (f : FlagVar) (v : Int) : CDnsSeedOpts :=
  match f with
  | FlagVar.fUseTestNet => { o with fUseTestNet := v }
  | FlagVar.fWipeBan => { o with fWipeBan := v }
  | FlagVar.fWipeIgnore => { o with fWipeIgnore := v }

/-- The value `c` returned by `getopt_long` for a find, `optarg`, and the
options after the store through `flag`: a short option returns its
character; a long option with a null `flag` returns `val`, one with a
non-null `flag` stores `val` there and returns 0; a rejected element returns
the code of `?`. -/
def getopt_long (o : CDnsSeedOpts) : GetoptFind → Int × String × CDnsSeedOpts
  | GetoptFind.shortOpt c optarg => (chr c, optarg, o)
  | GetoptFind.longOpt index optarg =>
    match long_options[index.val]? with
    | none => (chr '?', optarg, o)
    | some entry =>
      match entry.flag with
      | none => (entry.val, optarg, o)
      | some f => (0, optarg, storeFlag o f entry.val)
  | GetoptFind.rejected => (chr '?', "", o)

/-- The value `c` that `getopt_long` returns for a find. -/
def findCode (g : GetoptFind) : Int := (getopt_long CDnsSeedOpts.default g).1

/-- The thread count a find sets: `some n` when the find is `-t`/`--threads`
with an argument whose value `n` passes the test `n > 0 && n < 1000`. -/
def threadsSet (strtol : String → Int) (g : GetoptFind) : Option Int :=
  if findCode g = chr 't' ∧
      toInt32 (strtol (getopt_long CDnsSeedOpts.default g).2.1) > 0 ∧
      toInt32 (strtol (getopt_long CDnsSeedOpts.default g).2.1) < 1000 then
    some (toInt32 (strtol (getopt_long CDnsSeedOpts.default g).2.1))
  else none

/-- The local state of `ParseCommandLine`: the options and `showHelp`. -/
structure ParseState where
  opts : CDnsSeedOpts
  showHelp : Bool
deriving DecidableEq, Repr

/-- The `switch (c)` of lines 76-129 for the value `c` returned by
`getopt_long`, with `optarg` and the options `o` as that call left them.
`strtol s` is the value of the library call `strtol(s, NULL, 10)`. -/
def switchOn (strtol : String → Int) (showHelp : Bool) (c : Int) (optarg : String)
    (o : CDnsSeedOpts) : ParseState :=
  if c = chr 'h' then { opts := { o with host := some optarg }, showHelp := showHelp }
  else if c = chr 'm' then { opts := { o with mbox := some optarg }, showHelp := showHelp }
  else if c = chr 'n' then { opts := { o with ns := some optarg }, showHelp := showHelp }
  else if c = chr 't' then
    let n := toInt32 (strtol optarg)
    if n > 0 ∧ n < 1000 then { opts := { o with nThreads := n }, showHelp := showHelp }
    else { opts := o, showHelp := showHelp }
  else if c = chr 'd' then
    let n := toInt32 (strtol optarg)
    if n > 0 ∧ n < 1000 then { opts := { o with nDnsThreads := n }, showHelp := showHelp }
    else { opts := o, showHelp := showHelp }
  else if c = chr 'p' then
    let p := toInt32 (strtol optarg)
    if p > 0 ∧ p < 65536 then { opts := { o with nPort := p }, showHelp := showHelp }
    else { opts := o, showHelp := showHelp }
  else if c = chr 'o' then { opts := { o with tor := some optarg }, showHelp := showHelp }
  else if c = chr 'i' then { opts := { o with ipv4_proxy := some optarg }, showHelp := showHelp }
  else if c = chr 'k' then { opts := { o with ipv6_proxy := some optarg }, showHelp := showHelp }
  else if c = chr '?' then { opts := o, showHelp := true }
  else { opts := o, showHelp := showHelp }

/-- One pass through the `while(1)` of lines 56-130 for a find of
`getopt_long`: the call, then the `switch`. -/
def parseStep (strtol : String → Int) (st : ParseState) (g : GetoptFind) : ParseState :=
  switchOn strtol st.showHelp (getopt_long st.opts g).1 (getopt_long st.opts g).2.1
    (getopt_long st.opts g).2.2

/-- How a call of `ParseCommandLine` ends: the options as parsed, whether
the usage text was printed to `stderr`, and the status passed to `exit`
(`none` when the method returns to `main`). -/
structure ParseOutcome where
  opts : CDnsSeedOpts
  usagePrinted : Bool
  exitCode : Option Int
deriving DecidableEq, Repr

/-- The method `ParseCommandLine` (lines 35-136) on the options `o`, for
the command line given by the finds of `getopt_long`. -/
def ParseCommandLine (strtol : String → Int) (o : CDnsSeedOpts) (finds : List GetoptFind) :
    ParseOutcome :=
  let st := finds.foldl (parseStep strtol) { opts := o, showHelp := false }
  let showHelp := if st.opts.host.isSome ∧ st.opts.ns.isNone then true else st.showHelp
  if showHelp then { opts := st.opts, usagePrinted := true, exitCode := some 0 }
  else { opts := st.opts, usagePrinted := false, exitCode := none }

/-- The calls `main` makes on the database after loading `dnsseed.dat`. -/
inductive DbCall where
  | clearBanned
  | ResetIgnores
deriving DecidableEq, Repr

/-- Lines 448-451 of `main`, run when `dnsseed.dat` could be opened:
`if (opts.fWipeBan) db.banned.clear(); if (opts.fWipeIgnore)
db.ResetIgnores();`. -/
def main_wipe (o : CDnsSeedOpts) : List DbCall :=
  (if o.fWipeBan ≠ 0 then [DbCall.clearBanned] else []) ++
  (if o.fWipeIgnore ≠ 0 then [DbCall.ResetIgnores] else [])

/-! ## The empty-queue branch of `ThreadCrawler` -/

/-- Modelled from the spec: the `CServiceResult` of `db.h` is not part of
the sources at hand; the crawler reads the endpoint `service` and
`ourLastSuccess` of each entry. -/
structure CServiceResult where
  service : String
  ourLastSuccess : Int
deriving DecidableEq, Repr

/-- The calls one pass of the crawler loop makes, in order. -/
inductive CrawlerCall where
  | GetMany (count wait : Int)
  | Sleep (ms : Int)
  | TestNode (service : String) (getaddr : Bool)
  | ResultMany
  | Add
deriving DecidableEq, Repr

/-- Lines 153-154: `wait *= 1000; wait += rand() % (500 * *nThreads)` from
`wait = 5`, for the value `r` of `rand()`.  `%` is the remainder of C, which
truncates toward zero. -/
def ThreadCrawler_wait (nThreads r : Int) : Except Fault Int :=
  if 500 * nThreads = 0 then .error .divByZero
  else .ok (5 * 1000 + r.tmod (500 * nThreads))

/-- One pass through the loop of `ThreadCrawler` (lines 147-170): `ips` is
what `db.GetMany(ips, 16, wait)` returned, `now` the clock and `r` the value
of `rand()` should the branch for an empty queue be taken. -/
def ThreadCrawler_pass (nThreads : Int) (ips : List CServiceResult) (now r : Int) :
    Except Fault (List CrawlerCall) :=
  if ips.isEmpty then
    match ThreadCrawler_wait nThreads r with
    | .error e => .error e
    | .ok w => .ok [CrawlerCall.GetMany 16 5, CrawlerCall.Sleep w]
  else
    .ok ([CrawlerCall.GetMany 16 5] ++
      ips.map (fun res => CrawlerCall.TestNode res.service
        (decide (res.ourLastSuccess + 86400 < now))) ++
      [CrawlerCall.ResultMany, CrawlerCall.Add])

/-! # Theorems -/

/-! ## Lists: exchanging two entries -/

theorem cons_set_perm {α : Type} (x : α) :
    ∀ (xs : List α) (n : Nat) (hn : n < xs.length), (xs[n] :: xs.set n x).Perm (x :: xs)
  | [], n, hn => by simp at hn
  | y :: ys, 0, _ => by simpa using List.Perm.swap x y ys
  | y :: ys, n + 1, hn => by
    have hn2 : n < ys.length := by simpa using hn
    have ih := cons_set_perm x ys n hn2
    simp only [List.getElem_cons_succ, List.set_cons_succ]
    exact (List.Perm.swap y ys[n] (ys.set n x)).trans ((ih.cons y).trans (List.Perm.swap x y ys))

theorem swap_perm {α : Type} :
    ∀ (l : List α) (i j : Nat) (hi : i < l.length) (hj : j < l.length),
      ((l.set j l[i]).set i l[j]).Perm l
  | [], i, _, hi, _ => by simp at hi
  | x :: xs, 0, 0, _, _ => by simp
  | x :: xs, 0, j + 1, _, hj => by
    have hj2 : j < xs.length := by simpa using hj
    simpa using cons_set_perm x xs j hj2
  | x :: xs, i + 1, 0, hi, _ => by
    have hi2 : i < xs.length := by simpa using hi
    simpa using cons_set_perm x xs i hi2
  | x :: xs, i + 1, j + 1, hi, hj => by
    have hi2 : i < xs.length := by simpa using hi
    have hj2 : j < xs.length := by simpa using hj
    simpa using (swap_perm xs i j hi2 hj2).cons x

theorem swap_getElem? {α : Type} (l : List α) (i j k : Nat)
    (hi : i < l.length) (hj : j < l.length) :
    ((l.set j l[i]).set i l[j])[k]? =
      if k = i then some l[j] else if k = j then some l[i] else l[k]? := by
  rw [List.getElem?_set, List.getElem?_set]
  simp only [List.length_set]
  by_cases h1 : i = k
  · subst h1; simp [hi]
  · by_cases h2 : j = k
    · subst h2
      have h1b : ¬ j = i := fun h => h1 h.symm
      simp [hj, h1, h1b]
    · have h1b : ¬ k = i := fun h => h1 h.symm
      have h2b : ¬ k = j := fun h => h2 h.symm
      simp [h1, h2, h1b, h2b]

theorem swap_take {α : Type} (l : List α) (i j : Nat) (hij : i ≤ j)
    (hi : i < l.length) (hj : j < l.length) :
    ((l.set j l[i]).set i l[j]).take (i + 1) = l.take i ++ [l[j]] := by
  apply List.ext_getElem?
  intro k
  rw [List.getElem?_take, swap_getElem? l i j k hi hj]
  by_cases hk : k < i
  · have h1 : k ≠ i := by omega
    have h2 : k ≠ j := by omega
    have h3 : k < i + 1 := by omega
    rw [List.getElem?_append_left (by simpa [List.length_take] using (by omega : k < i ∧ k < l.length))]
    simp [h1, h2, h3, List.getElem?_take, hk]
  · by_cases hk2 : k = i
    · subst hk2
      rw [List.getElem?_append_right (by rw [List.length_take]; omega)]
      have : min k l.length = k := by omega
      simp [List.length_take, this]
    · have h3 : ¬ k < i + 1 := by omega
      rw [List.getElem?_append_right (by rw [List.length_take]; omega)]
      have : min i l.length = i := by omega
      have h4 : k - i ≠ 0 := by omega
      simp [List.length_take, this, h3]
      omega

theorem swap_map {α β : Type} (f : α → β) (l : List α) (i j : Nat)
    (hi : i < l.length) (hj : j < l.length) :
    ((l.set j l[i]).set i l[j]).map f = ((l.map f).set j (f l[i])).set i (f l[j]) := by
  simp [List.map_set]

/-! ## The inner scan -/

theorem scan_sound (cache : List addr_t) (size i : Nat) (ipv4 ipv6 : Bool) :
    ∀ (fuel j m : Nat), i ≤ j → j < size →
      scan cache size i ipv4 ipv6 fuel j = .ok m →
      i ≤ m ∧ m < size ∧ ∃ a, cache[m]? = some a ∧ requested ipv4 ipv6 a = true := by
  intro fuel
  induction fuel with
  | zero => intro j m _ _ h; simp [scan] at h
  | succ fuel ih =>
    intro j m hij hj h
    unfold scan at h
    cases hc : cache[j]? with
    | none => simp [hc] at h
    | some a =>
      simp only [hc] at h
      by_cases hp : requested ipv4 ipv6 a = true
      · simp only [hp, if_true] at h
        have hm : j = m := by injection h
        subst hm
        exact ⟨hij, hj, a, hc, hp⟩
      · simp only [hp] at h
        by_cases hw : j + 1 = size
        · simp only [hw, if_true] at h
          exact ih i m (Nat.le_refl i) (by omega) h
        · simp only [hw] at h
          exact ih (j + 1) m (by omega) (by omega) h

theorem scan_mono (cache : List addr_t) (size i : Nat) (ipv4 ipv6 : Bool) :
    ∀ (fuel extra j m : Nat), scan cache size i ipv4 ipv6 fuel j = .ok m →
      scan cache size i ipv4 ipv6 (fuel + extra) j = .ok m := by
  intro fuel
  induction fuel with
  | zero => intro extra j m h; simp [scan] at h
  | succ fuel ih =>
    intro extra j m h
    have he : fuel + 1 + extra = (fuel + extra) + 1 := by omega
    rw [he]
    unfold scan at h ⊢
    cases hc : cache[j]? with
    | none => simp [hc] at h
    | some a =>
      simp only [hc] at h ⊢
      by_cases hp : requested ipv4 ipv6 a = true
      · simpa [hp] using h
      · simp only [hp] at h ⊢
        exact ih extra _ m h

theorem scan_up (cache : List addr_t) (size i : Nat) (ipv4 ipv6 : Bool)
    (hsize : size ≤ cache.length) :
    ∀ (d j fuel : Nat), j + d < size → d < fuel →
      (∃ a, cache[j + d]? = some a ∧ requested ipv4 ipv6 a = true) →
      ∃ m, scan cache size i ipv4 ipv6 fuel j = .ok m := by
  intro d
  induction d with
  | zero =>
    intro j fuel hj hf ⟨a, ha, hp⟩
    obtain ⟨f, rfl⟩ : ∃ f, fuel = f + 1 := ⟨fuel - 1, by omega⟩
    refine ⟨j, ?_⟩
    unfold scan
    simp only [Nat.add_zero] at ha
    simp [ha, hp]
  | succ d ih =>
    intro j fuel hj hf hex
    obtain ⟨f, rfl⟩ : ∃ f, fuel = f + 1 := ⟨fuel - 1, by omega⟩
    have hjl : j < cache.length := by omega
    unfold scan
    rw [List.getElem?_eq_getElem hjl]
    by_cases hp : requested ipv4 ipv6 cache[j] = true
    · exact ⟨j, by simp [hp]⟩
    · have hw : ¬ j + 1 = size := by omega
      simp only [hp, hw, if_false]
      have hidx : j + 1 + d = j + (d + 1) := by omega
      exact ih (j + 1) f (by omega) (by omega) (by rw [hidx]; exact hex)

theorem scan_wrap (cache : List addr_t) (size i : Nat) (ipv4 ipv6 : Bool)
    (hsize : size ≤ cache.length) :
    ∀ (d j fuel : Nat), j + d = size → 0 < d →
      (∀ k a, j ≤ k → k < size → cache[k]? = some a → requested ipv4 ipv6 a = false) →
      scan cache size i ipv4 ipv6 (fuel + d) j = scan cache size i ipv4 ipv6 fuel i := by
  intro d
  induction d with
  | zero => intro j fuel _ h; omega
  | succ d ih =>
    intro j fuel hj _ hno
    have hjl : j < cache.length := by omega
    have he : fuel + (d + 1) = (fuel + d) + 1 := by omega
    rw [he]
    conv => lhs; unfold scan
    rw [List.getElem?_eq_getElem hjl]
    have hp : requested ipv4 ipv6 cache[j] = false :=
      hno j _ (Nat.le_refl j) (by omega) (List.getElem?_eq_getElem hjl)
    simp only [hp]
    by_cases hw : j + 1 = size
    · have hd : d = 0 := by omega
      subst hd
      simp [hw]
    · simp only [hw, if_false]
      exact ih (j + 1) fuel (by omega) (by omega)
        (fun k a hk hk2 hka => hno k a (by omega) hk2 hka)

theorem scan_total (cache : List addr_t) (size i : Nat) (ipv4 ipv6 : Bool)
    (hsize : size ≤ cache.length) (j fuel : Nat) (hij : i ≤ j) (hj : j < size)
    (hfuel : size - i ≤ fuel)
    (hex : ∃ m a, i ≤ m ∧ m < size ∧ cache[m]? = some a ∧ requested ipv4 ipv6 a = true) :
    ∃ m, scan cache size i ipv4 ipv6 fuel j = .ok m := by
  by_cases hup : ∃ m a, j ≤ m ∧ m < size ∧ cache[m]? = some a ∧ requested ipv4 ipv6 a = true
  · obtain ⟨m, a, hjm, hm, ha, hp⟩ := hup
    have hidx : j + (m - j) = m := by omega
    exact scan_up cache size i ipv4 ipv6 hsize (m - j) j fuel (by omega) (by omega)
      ⟨a, by rw [hidx]; exact ha, hp⟩
  · obtain ⟨m, a, him, hm, ha, hp⟩ := hex
    have hno : ∀ k b, j ≤ k → k < size → cache[k]? = some b →
        requested ipv4 ipv6 b = false := by
      intro k b hk hk2 hkb
      by_contra hc
      exact hup ⟨k, b, hk, hk2, hkb, by simpa using hc⟩
    have hmj : m < j := by
      by_contra hc
      have := hno m a (by omega) hm ha
      rw [hp] at this
      exact Bool.noConfusion this
    have hf : fuel = (fuel - (size - j)) + (size - j) := by omega
    rw [hf, scan_wrap cache size i ipv4 ipv6 hsize (size - j) j _ (by omega) (by omega) hno]
    have hidx : i + (m - i) = m := by omega
    exact scan_up cache size i ipv4 ipv6 hsize (m - i) i _ (by omega) (by omega)
      ⟨a, by rw [hidx]; exact ha, hp⟩

/-! ## The invariant of the sampling loop -/

theorem LoopInv.start (c0 : List addr_t) (ipv4 ipv6 : Bool) :
    LoopInv c0 ipv4 ipv6 0 c0 [] (List.range c0.length) where
  len := rfl
  bound := Nat.zero_le _
  perm := List.Perm.refl _
  front := by simp
  req := by simp
  posPerm := List.Perm.refl _
  posMap := by
    apply List.ext_getElem?
    intro k
    by_cases hk : k < c0.length
    · simp [List.getElem?_map, List.getElem?_range hk, List.getElem?_eq_getElem hk]
    · have h1 : c0[k]? = none := List.getElem?_eq_none (by omega)
      have h2 : (List.range c0.length)[k]? = none :=
        List.getElem?_eq_none (by simp; omega)
      simp [List.getElem?_map, h1, h2]

/-- While fewer entries have been drawn than `c0` holds of the requested
families, one of them is left at an index from `i` on. -/
theorem LoopInv.exists_left {c0 : List addr_t} {ipv4 ipv6 : Bool} {i : Nat}
    {cache addr : List addr_t} {pos : List Nat}
    (inv : LoopInv c0 ipv4 ipv6 i cache addr pos)
    (hlt : i < c0.countP (requested ipv4 ipv6)) :
    ∃ m a, i ≤ m ∧ m < c0.length ∧ cache[m]? = some a ∧ requested ipv4 ipv6 a = true := by
  have h1 : cache.countP (requested ipv4 ipv6) = c0.countP (requested ipv4 ipv6) :=
    inv.perm.countP_eq _
  have h2 : (cache.take i).countP (requested ipv4 ipv6) = i := by
    have h := (List.countP_eq_length (l := cache.take i) (p := requested ipv4 ipv6)).2
      (by rw [← inv.front]; exact inv.req)
    rw [h, List.length_take]
    exact Nat.min_eq_left inv.bound
  have h3 : cache.countP (requested ipv4 ipv6) =
      (cache.take i).countP (requested ipv4 ipv6) +
      (cache.drop i).countP (requested ipv4 ipv6) := by
    rw [← List.countP_append, List.take_append_drop]
  have h4 : 0 < (cache.drop i).countP (requested ipv4 ipv6) := by omega
  obtain ⟨a, hmem, hp⟩ := List.countP_pos_iff.1 h4
  obtain ⟨k, hk, hka⟩ := List.mem_iff_getElem.1 hmem
  have hk2 : i + k < cache.length := by
    rw [List.length_drop] at hk; omega
  refine ⟨i + k, a, by omega, by rw [← inv.len]; exact hk2, ?_, hp⟩
  rw [List.getElem?_eq_getElem hk2, ← hka, List.getElem_drop]

/-- What one pass of the loop does under the invariant. -/
theorem LoopInv.step {c0 : List addr_t} {ipv4 ipv6 : Bool} {i : Nat}
    {cache addr : List addr_t} {pos : List Nat}
    (inv : LoopInv c0 ipv4 ipv6 i cache addr pos)
    (hlt : i < c0.countP (requested ipv4 ipv6))
    (fuel : Nat) (hfuel : c0.length - i ≤ fuel) (r : Nat) :
    0 < c0.length - i ∧
    startIndex c0.length i r = .ok (i + r % (c0.length - i)) ∧
    i + r % (c0.length - i) < c0.length ∧
    ∃ j a cache1 pos1, i ≤ j ∧ j < c0.length ∧ cache[j]? = some a ∧
      requested ipv4 ipv6 a = true ∧
      scan cache c0.length i ipv4 ipv6 (c0.length - i) (i + r % (c0.length - i)) = .ok j ∧
      scan cache c0.length i ipv4 ipv6 fuel (i + r % (c0.length - i)) = .ok j ∧
      drawStep fuel c0.length ipv4 ipv6 r i cache = .ok (cache1, a) ∧
      LoopInv c0 ipv4 ipv6 (i + 1) cache1 (addr ++ [a]) pos1 := by
  have hex := inv.exists_left hlt
  obtain ⟨m, am, him, hm, _, _⟩ := inv.exists_left hlt
  have hpos : 0 < c0.length - i := by omega
  have hj0 : i + r % (c0.length - i) < c0.length := by
    have := Nat.mod_lt r hpos
    omega
  have hstart : startIndex c0.length i r = .ok (i + r % (c0.length - i)) := by
    unfold startIndex
    rw [if_neg (by omega)]
  have hsz : c0.length ≤ cache.length := by rw [inv.len]
  obtain ⟨j, hscan⟩ := scan_total cache c0.length i ipv4 ipv6 hsz
    (i + r % (c0.length - i)) (c0.length - i) (by omega) hj0 (Nat.le_refl _) hex
  obtain ⟨hij, hj, a, hja, hpa⟩ := scan_sound cache c0.length i ipv4 ipv6 _ _ _
    (by omega) hj0 hscan
  have hscan2 : scan cache c0.length i ipv4 ipv6 fuel (i + r % (c0.length - i)) = .ok j := by
    have h := scan_mono cache c0.length i ipv4 ipv6 _ (fuel - (c0.length - i)) _ _ hscan
    have he : c0.length - i + (fuel - (c0.length - i)) = fuel := by omega
    rwa [he] at h
  have hjc : j < cache.length := by omega
  have hic : i < cache.length := by omega
  have haj : a = cache[j] := by
    rw [List.getElem?_eq_getElem hjc] at hja
    exact (Option.some.inj hja).symm
  have hjp : j < pos.length := by
    have := inv.posPerm.length_eq
    rw [List.length_range] at this
    omega
  have hip : i < pos.length := by
    have := inv.posPerm.length_eq
    rw [List.length_range] at this
    omega
  refine ⟨hpos, hstart, hj0, j, a, (cache.set j cache[i]).set i cache[j],
    (pos.set j pos[i]).set i pos[j], hij, hj, hja, hpa, hscan, hscan2, ?_, ?_⟩
  · unfold drawStep
    rw [hstart]
    simp only [hscan2]
    unfold swapOut
    rw [List.getElem?_eq_getElem hjc, List.getElem?_eq_getElem hic, haj]
  · refine ⟨by simp [inv.len], by simp; omega, (swap_perm cache i j hic hjc).trans inv.perm,
      ?_, ?_, (swap_perm pos i j hip hjp).trans inv.posPerm, ?_⟩
    · rw [swap_take cache i j hij hic hjc, inv.front, haj]
    · intro b hb
      rcases List.mem_append.1 hb with h | h
      · exact inv.req b h
      · have : b = a := by simpa using h
        rw [this]; exact hpa
    · rw [swap_map some cache i j hic hjc, swap_map (fun p => c0[p]?) pos i j hip hjp]
      have hmi : some cache[i] = c0[pos[i]]? := by
        have h := congrArg (fun l => l[i]?) inv.posMap
        simpa [List.getElem?_map, List.getElem?_eq_getElem hic,
          List.getElem?_eq_getElem hip] using h
      have hmj : some cache[j] = c0[pos[j]]? := by
        have h := congrArg (fun l => l[j]?) inv.posMap
        simpa [List.getElem?_map, List.getElem?_eq_getElem hjc,
          List.getElem?_eq_getElem hjp] using h
      rw [inv.posMap, hmi, hmj]

/-- The loop runs `todo` passes from the invariant and ends in it. -/
theorem drawLoop_ok (c0 : List addr_t) (ipv4 ipv6 : Bool) (rand : Nat → Nat)
    (fuel : Nat) (hfuel : c0.length ≤ fuel) :
    ∀ (todo i : Nat) (cache addr : List addr_t) (pos : List Nat),
      LoopInv c0 ipv4 ipv6 i cache addr pos →
      i + todo ≤ c0.countP (requested ipv4 ipv6) →
      ∃ cache1 addr1 pos1,
        drawLoop fuel c0.length ipv4 ipv6 rand todo i cache addr = .ok (cache1, addr1) ∧
        LoopInv c0 ipv4 ipv6 (i + todo) cache1 addr1 pos1 := by
  intro todo
  induction todo with
  | zero =>
    intro i cache addr pos inv _
    exact ⟨cache, addr, pos, rfl, inv⟩
  | succ todo ih =>
    intro i cache addr pos inv hle
    obtain ⟨_, _, _, j, a, cache1, pos1, _, _, _, _, _, _, hstep, inv1⟩ :=
      inv.step (by omega) fuel (by omega) (rand i)
    obtain ⟨cache2, addr2, pos2, hrun, inv2⟩ :=
      ih (i + 1) cache1 (addr ++ [a]) pos1 inv1 (by omega)
    refine ⟨cache2, addr2, pos2, ?_, ?_⟩
    · unfold drawLoop
      simp only [hstep]
      exact hrun
    · have he : i + (todo + 1) = i + 1 + todo := by omega
      rw [he]; exact inv2

/-! ## The clamps and the result of `GetIPList` -/

theorem countP_requested (ipv4 ipv6 : Bool) (c : List addr_t) :
    c.countP (requested ipv4 ipv6) =
      (if ipv4 then c.countP (fun a => decide (a.v = 4)) else 0) +
      (if ipv6 then c.countP (fun a => decide (a.v = 6)) else 0) := by
  induction c with
  | nil => cases ipv4 <;> cases ipv6 <;> rfl
  | cons a c ih =>
    simp only [List.countP_cons, ih, requested]
    by_cases h4 : a.v = 4
    · have h6 : ¬ a.v = 6 := by omega
      cases ipv4 <;> cases ipv6 <;> simp [h4]
      all_goals omega
    · by_cases h6 : a.v = 6
      · cases ipv4 <;> cases ipv6 <;> simp [h6]
        all_goals omega
      · cases ipv4 <;> cases ipv6 <;> simp [h4, h6]

theorem wanted_eq_countP {t : CDnsThread} (hc : Consistent t) (ipv4 ipv6 : Bool) :
    wanted t ipv4 ipv6 = t.cache.countP (requested ipv4 ipv6) := by
  rw [countP_requested, wanted, hc.1, hc.2]

theorem toInt32_of_lt (x : Int) (h0 : 0 ≤ x) (h1 : x < 2147483648) : toInt32 x = x := by
  unfold toInt32
  omega

theorem clampMax_eq {t : CDnsThread} (hc : Consistent t)
    (hlen : t.cache.length < 2147483648) (max : Int) (h0 : 0 ≤ max)
    (h1 : max < 2147483648) (ipv4 ipv6 : Bool) :
    clampMax t max ipv4 ipv6 = min max (wanted t ipv4 ipv6 : Int) := by
  have hw : wanted t ipv4 ipv6 ≤ t.cache.length := by
    rw [wanted_eq_countP hc]; exact List.countP_le_length _
  unfold clampMax u32
  have hs : t.cache.length % 4294967296 = t.cache.length := Nat.mod_eq_of_lt (by omega)
  have hm : ((if ipv4 then t.nIPv4 else 0) + (if ipv6 then t.nIPv6 else 0)) % 4294967296
      = wanted t ipv4 ipv6 := by
    unfold wanted at hw ⊢
    exact Nat.mod_eq_of_lt (by omega)
  simp only [hs, hm]
  have hu : max % 4294967296 = max := Int.emod_eq_of_lt h0 (by omega)
  have hts : toInt32 (t.cache.length : Int) = t.cache.length :=
    toInt32_of_lt _ (by omega) (by omega)
  have htw : toInt32 (wanted t ipv4 ipv6 : Int) = wanted t ipv4 ipv6 :=
    toInt32_of_lt _ (by omega) (by omega)
  rw [hu, hts, htw]
  by_cases ha : max > (t.cache.length : Int)
  · rw [if_pos ha]
    have hu2 : (t.cache.length : Int) % 4294967296 = t.cache.length :=
      Int.emod_eq_of_lt (by omega) (by omega)
    rw [hu2]
    by_cases hb : (t.cache.length : Int) > (wanted t ipv4 ipv6 : Int)
    · rw [if_pos hb]; omega
    · rw [if_neg hb]; omega
  · rw [if_neg ha, hu]
    by_cases hb : max > (wanted t ipv4 ipv6 : Int)
    · rw [if_pos hb]; omega
    · rw [if_neg hb]; omega

/-- Everything the sampling loop guarantees on a consistent cache, in one
statement: it returns, the return value is `min max wanted`, `addr` is the
front part of the rearranged cache, all its entries have a requested family
and come from pairwise distinct positions `ps` of the cache before. -/
theorem sampleCache_spec (t : CDnsThread) (max : Int) (ipv4 ipv6 : Bool)
    (rand : Nat → Nat) (fuel : Nat) (hc : Consistent t)
    (hlen : t.cache.length < 2147483648) (h0 : 0 ≤ max) (h1 : max < 2147483648)
    (hfuel : t.cache.length ≤ fuel) :
    ∃ (cache1 addr : List addr_t) (ps : List Nat),
      sampleCache fuel t max ipv4 ipv6 rand =
        .ok { thread := { t with cache := cache1 }, addr := addr,
              ret := min max (wanted t ipv4 ipv6 : Int) } ∧
      (addr.length : Int) = min max (wanted t ipv4 ipv6 : Int) ∧
      (∀ a ∈ addr, requested ipv4 ipv6 a = true) ∧
      cache1.Perm t.cache ∧
      addr = cache1.take addr.length ∧
      ps.Nodup ∧
      addr.map some = ps.map (fun p => t.cache[p]?) := by
  have hn := clampMax_eq hc hlen max h0 h1 ipv4 ipv6
  have hs : t.cache.length % 4294967296 = t.cache.length := Nat.mod_eq_of_lt (by omega)
  have hle : 0 + (min max (wanted t ipv4 ipv6 : Int)).toNat ≤
      t.cache.countP (requested ipv4 ipv6) := by
    rw [← wanted_eq_countP hc]; omega
  obtain ⟨cache1, addr, pos, hrun, inv⟩ :=
    drawLoop_ok t.cache ipv4 ipv6 rand fuel hfuel _ 0 t.cache [] _
      (LoopInv.start t.cache ipv4 ipv6) hle
  have hal : addr.length = (min max (wanted t ipv4 ipv6 : Int)).toNat := by
    have hb := inv.bound
    rw [inv.front, List.length_take]
    omega
  refine ⟨cache1, addr, pos.take addr.length, ?_, ?_, inv.req, inv.perm, ?_, ?_, ?_⟩
  · unfold sampleCache
    simp only [hs, hn, hrun]
  · rw [hal]; omega
  · rw [hal, Nat.zero_add] at *
    exact inv.front
  · have hnd : pos.Nodup := (inv.posPerm.nodup_iff).2 (List.nodup_range _)
    exact hnd.sublist (List.take_sublist _ _)
  · have hf := inv.front
    rw [Nat.zero_add, ← hal] at hf
    rw [List.map_take, ← inv.posMap, ← List.map_take, ← hf]

/-! ## The cache invariant -/

theorem rebuildStep_inv (t : CDnsThread) (ip : CNetAddr) (h : CacheInv t) :
    CacheInv (rebuildStep t ip) := by
  obtain ⟨hv, h4, h6⟩ := h
  unfold rebuildStep
  cases h1 : ip.inAddr with
  | some b =>
    refine ⟨?_, ?_, ?_⟩
    · intro a ha
      rcases List.mem_append.1 ha with h | h
      · exact hv a h
      · left; have : a = ⟨4, b⟩ := by simpa using h
        rw [this]
    · simp [List.countP_append, h4]
    · simp [List.countP_append, h6]
  | none =>
    cases h2 : ip.in6Addr with
    | some b =>
      refine ⟨?_, ?_, ?_⟩
      · intro a ha
        rcases List.mem_append.1 ha with h | h
        · exact hv a h
        · right; have : a = ⟨6, b⟩ := by simpa using h
          rw [this]
      · simp [List.countP_append, h4]
      · simp [List.countP_append, h6]
    | none => exact ⟨hv, h4, h6⟩

theorem foldl_rebuildStep_inv (ips : List CNetAddr) :
    ∀ t : CDnsThread, CacheInv t → CacheInv (ips.foldl rebuildStep t) := by
  induction ips with
  | nil => intro t h; exact h
  | cons ip ips ih => intro t h; exact ih _ (rebuildStep_inv t ip h)

theorem foldl_rebuildStep_cache (ips : List CNetAddr) :
    ∀ t : CDnsThread, (ips.foldl rebuildStep t).cache = t.cache ++ ips.filterMap toAddr := by
  induction ips with
  | nil => intro t; simp
  | cons ip ips ih =>
    intro t
    rw [List.foldl_cons, ih]
    unfold rebuildStep toAddr
    cases h1 : ip.inAddr with
    | some b => simp [List.filterMap_cons, toAddr, h1]
    | none =>
      cases h2 : ip.in6Addr with
      | some b => simp [List.filterMap_cons, toAddr, h1, h2]
      | none => simp [List.filterMap_cons, toAddr, h1, h2]

theorem foldl_rebuildStep_rest (ips : List CNetAddr) :
    ∀ t : CDnsThread, (ips.foldl rebuildStep t).cacheTime = t.cacheTime ∧
      (ips.foldl rebuildStep t).cacheHits = t.cacheHits ∧
      (ips.foldl rebuildStep t).dbQueries = t.dbQueries := by
  induction ips with
  | nil => intro t; exact ⟨rfl, rfl, rfl⟩
  | cons ip ips ih =>
    intro t
    rw [List.foldl_cons]
    obtain ⟨h1, h2, h3⟩ := ih (rebuildStep t ip)
    rw [h1, h2, h3]
    unfold rebuildStep
    cases ip.inAddr with
    | some b => exact ⟨rfl, rfl, rfl⟩
    | none =>
      cases ip.in6Addr with
      | some b => exact ⟨rfl, rfl, rfl⟩
      | none => exact ⟨rfl, rfl, rfl⟩

theorem cacheHit_inv (s : CDnsThread) (force : Bool) (now : Int)
    (GetIPs : Nat → Bool → Bool → List CNetAddr) (h : CacheInv s) :
    CacheInv (s.cacheHit force now GetIPs) := by
  unfold CDnsThread.cacheHit
  simp only
  split
  · have h0 : ∀ t : CDnsThread, t.cache = [] → t.nIPv4 = 0 → t.nIPv6 = 0 → CacheInv t := by
      intro t h1 h2 h3
      exact ⟨by simp [h1], by simp [Consistent, h1, h2, h3]⟩
    exact foldl_rebuildStep_inv _ _ (h0 _ rfl rfl rfl)
  · exact h

theorem swapOut_perm (cache : List addr_t) (i j : Nat) (cache1 : List addr_t) (a : addr_t)
    (h : swapOut cache i j = .ok (cache1, a)) : cache1.Perm cache := by
  unfold swapOut at h
  by_cases hj : j < cache.length
  · by_cases hi : i < cache.length
    · rw [List.getElem?_eq_getElem hj, List.getElem?_eq_getElem hi] at h
      simp only [Except.ok.injEq, Prod.mk.injEq] at h
      rw [← h.1]
      exact swap_perm cache i j hi hj
    · rw [List.getElem?_eq_getElem hj, List.getElem?_eq_none (by omega)] at h
      simp at h
  · rw [List.getElem?_eq_none (by omega)] at h
    simp at h

theorem drawStep_perm (fuel size : Nat) (ipv4 ipv6 : Bool) (r i : Nat)
    (cache cache1 : List addr_t) (a : addr_t)
    (h : drawStep fuel size ipv4 ipv6 r i cache = .ok (cache1, a)) : cache1.Perm cache := by
  unfold drawStep at h
  split at h
  · simp at h
  · split at h
    · simp at h
    · exact swapOut_perm _ _ _ _ _ h

theorem drawLoop_perm (fuel size : Nat) (ipv4 ipv6 : Bool) (rand : Nat → Nat) :
    ∀ (todo i : Nat) (cache addr cache1 addr1 : List addr_t),
      drawLoop fuel size ipv4 ipv6 rand todo i cache addr = .ok (cache1, addr1) →
      cache1.Perm cache := by
  intro todo
  induction todo with
  | zero =>
    intro i cache addr cache1 addr1 h
    simp only [drawLoop, Except.ok.injEq, Prod.mk.injEq] at h
    rw [h.1]
  | succ todo ih =>
    intro i cache addr cache1 addr1 h
    unfold drawLoop at h
    split at h
    · simp at h
    · rename_i c2 a hstep
      exact (ih _ _ _ _ _ h).trans (drawStep_perm _ _ _ _ _ _ _ _ _ hstep)

theorem sampleCache_thread (fuel : Nat) (t : CDnsThread) (max : Int) (ipv4 ipv6 : Bool)
    (rand : Nat → Nat) (r : IPListResult)
    (h : sampleCache fuel t max ipv4 ipv6 rand = .ok r) :
    r.thread.cache.Perm t.cache ∧ r.thread = { t with cache := r.thread.cache } := by
  unfold sampleCache at h
  simp only at h
  split at h
  · simp at h
  · rename_i c1 addr hrun
    simp only [Except.ok.injEq] at h
    rw [← h]
    exact ⟨drawLoop_perm _ _ _ _ _ _ _ _ _ _ _ hrun, rfl⟩

theorem sampleCache_inv (fuel : Nat) (t : CDnsThread) (max : Int) (ipv4 ipv6 : Bool)
    (rand : Nat → Nat) (r : IPListResult)
    (h : sampleCache fuel t max ipv4 ipv6 rand = .ok r) (hinv : CacheInv t) :
    CacheInv r.thread := by
  obtain ⟨hp, he⟩ := sampleCache_thread fuel t max ipv4 ipv6 rand r h
  obtain ⟨hv, h4, h6⟩ := hinv
  refine ⟨fun a ha => hv a (hp.mem_iff.1 ha), ?_, ?_⟩
  · rw [he]; simp only; rw [hp.countP_eq]; exact h4
  · rw [he]; simp only; rw [hp.countP_eq]; exact h6

theorem countP_four_add_six (c : List addr_t) (hv : ∀ a ∈ c, a.v = 4 ∨ a.v = 6) :
    c.countP (fun a => decide (a.v = 4)) + c.countP (fun a => decide (a.v = 6)) = c.length := by
  induction c with
  | nil => rfl
  | cons a c ih =>
    have ih2 := ih (fun b hb => hv b (List.mem_cons_of_mem a hb))
    simp only [List.countP_cons, List.length_cons]
    rcases hv a (List.mem_cons_self a c) with h | h
    · simp [h]; omega
    · simp [h]; omega

theorem reachable_inv (s : CDnsThread) (h : Reachable s) : CacheInv s := by
  induction h with
  | init now GetIPs =>
    exact cacheHit_inv _ true now GetIPs ⟨by simp, by simp [Consistent]⟩
  | cacheHit s force now GetIPs _ ih => exact cacheHit_inv s force now GetIPs ih
  | getIPList s fuel now GetIPs max ipv4 ipv6 rand r _ _ hrun ih =>
    exact sampleCache_inv fuel _ max ipv4 ipv6 rand r hrun (cacheHit_inv s false now GetIPs ih)

/-! ## The value ranges of the cache -/

theorem InRange.bounds {s : CDnsThread} (h : InRange s) :
    s.cacheHits + 1 < 65536 ∧ s.cache.length < 2147483648 := by
  obtain ⟨h1, h2⟩ := h
  have h3 : s.cache.length * s.cache.length ≤ 1000 * 1000 := Nat.mul_le_mul h1 h1
  have h4 : s.cache.length * s.cache.length / 400 ≤ 2500 := by omega
  omega

theorem cacheHit_inRange (s : CDnsThread) (force : Bool) (now : Int)
    (GetIPs : Nat → Bool → Bool → List CNetAddr) (h : s.cache.length ≤ 1000)
    (hlim : (GetIPs 1000 true true).length ≤ 1000) :
    InRange (s.cacheHit force now GetIPs) := by
  unfold CDnsThread.cacheHit
  simp only
  split
  · refine ⟨?_, Nat.zero_le _⟩
    show (List.foldl rebuildStep _ (GetIPs 1000 true true)).cache.length ≤ 1000
    rw [foldl_rebuildStep_cache]
    have := List.length_filterMap_le toAddr (GetIPs 1000 true true)
    simp only [List.nil_append]
    omega
  · rename_i hno
    refine ⟨h, ?_⟩
    show (s.cacheHits + 1) % 4294967296 ≤ s.cache.length * s.cache.length / 400
    have h3 : s.cache.length * s.cache.length ≤ 1000 * 1000 := Nat.mul_le_mul h h
    have hs : s.cache.length % 18446744073709551616 = s.cache.length :=
      Nat.mod_eq_of_lt (by omega)
    have hm : s.cache.length * s.cache.length % 18446744073709551616 =
        s.cache.length * s.cache.length := Nat.mod_eq_of_lt (by omega)
    unfold refreshDue at hno
    rw [hs, hm] at hno
    simp only [Bool.or_eq_true, decide_eq_true_eq, not_or, not_lt] at hno
    exact hno.1.2

theorem init_inRange (now : Int) (GetIPs : Nat → Bool → Bool → List CNetAddr)
    (hlim : (GetIPs 1000 true true).length ≤ 1000) :
    InRange (CDnsThread.init now GetIPs) :=
  cacheHit_inRange _ true now GetIPs (by simp) hlim

theorem sampleCache_inRange (fuel : Nat) (t : CDnsThread) (max : Int) (ipv4 ipv6 : Bool)
    (rand : Nat → Nat) (r : IPListResult)
    (h : sampleCache fuel t max ipv4 ipv6 rand = .ok r) (hr : InRange t) :
    InRange r.thread := by
  obtain ⟨hp, he⟩ := sampleCache_thread fuel t max ipv4 ipv6 rand r h
  have hl := hp.length_eq
  have hh : r.thread.cacheHits = t.cacheHits := by rw [he]
  unfold InRange
  rw [hl, hh]
  exact hr

/-- Every state reachable under the contract of `GetIPs` is in range, so
that none of the unsigned operations of `cacheHit` wraps and the cache can be
indexed by an `int`. -/
theorem reachableLimited_inRange (s : CDnsThread) (h : ReachableLimited s) :
    InRange s ∧ s.cacheHits + 1 < 65536 ∧ s.cache.length < 2147483648 := by
  have hr : InRange s := by
    induction h with
    | init now GetIPs hlim => exact init_inRange now GetIPs hlim
    | cacheHit s force now GetIPs _ hlim ih => exact cacheHit_inRange s force now GetIPs ih.1 hlim
    | getIPList s fuel now GetIPs max ipv4 ipv6 rand r _ hlim _ hrun ih =>
      exact sampleCache_inRange fuel _ max ipv4 ipv6 rand r hrun
        (cacheHit_inRange s false now GetIPs ih.1 hlim)
  exact ⟨hr, hr.bounds⟩

/-! ## Claims on `GetIPList` -/

/-- C1. `GetIPList` returns exactly what exists, capped at `max`: whenever
the thread `t` left by the call's refresh check has consistent counters (and
a cache an `int` can index), `max` is a non-negative `int` and the scan has
fuel for one round of the cache, the call returns
`n = min(max, (ipv4 ? nIPv4 : 0) + (ipv6 ? nIPv6 : 0))`, writes exactly `n`
entries to `addr`, and each of them has a requested family. -/
theorem GetIPList_returns_min (s t : CDnsThread) (now : Int)
    (GetIPs : Nat → Bool → Bool → List CNetAddr) (max : Int) (ipv4 ipv6 : Bool)
    (rand : Nat → Nat) (fuel : Nat)
    (ht : t = s.cacheHit false now GetIPs)
    (hc : Consistent t) (hlen : t.cache.length < 2147483648)
    (h0 : 0 ≤ max) (h1 : max < 2147483648) (hfuel : t.cache.length ≤ fuel) :
    ∃ r, GetIPList fuel s now GetIPs max ipv4 ipv6 rand = .ok r ∧
      r.ret = min max
        (((if ipv4 then t.nIPv4 else 0) + (if ipv6 then t.nIPv6 else 0) : Nat) : Int) ∧
      (r.addr.length : Int) = r.ret ∧
      ∀ a ∈ r.addr, (ipv4 = true ∧ a.v = 4) ∨ (ipv6 = true ∧ a.v = 6) := by
  obtain ⟨cache1, addr, ps, hrun, hl, hreq, _, _, _, _⟩ :=
    sampleCache_spec t max ipv4 ipv6 rand fuel hc hlen h0 h1 hfuel
  refine ⟨_, by unfold GetIPList; rw [← ht]; exact hrun, rfl, hl, ?_⟩
  intro a ha
  have h := hreq a ha
  simpa [requested] using h

/-- The scenario of the specification for C1: with 3 IPv4 and 5 IPv6 entries
cached, `max = 10` with IPv4 only returns exactly 3 entries, all IPv4, and
`max = 2` with both families returns exactly 2. -/
theorem GetIPList_returns_min_witness :
    Consistent (thread35.cacheHit false 10 db35) ∧
    (thread35.cacheHit false 10 db35).cache.length = 8 ∧
    (thread35.cacheHit false 10 db35).nIPv4 = 3 ∧
    (thread35.cacheHit false 10 db35).nIPv6 = 5 ∧
    (∃ r, GetIPList 8 thread35 10 db35 10 true false rand35 = .ok r ∧
      r.ret = 3 ∧ (r.addr.length : Int) = 3 ∧ ∀ a ∈ r.addr, a.v = 4) ∧
    (∃ r, GetIPList 8 thread35 10 db35 2 true true rand35 = .ok r ∧
      r.ret = 2 ∧ (r.addr.length : Int) = 2) := by
  refine ⟨by decide, by decide, by decide, by decide, ?_, ?_⟩
  · obtain ⟨r, h1, h2, h3, h4⟩ := GetIPList_returns_min thread35 _ 10 db35 10 true false
      rand35 8 rfl (by decide) (by decide) (by decide) (by decide) (by decide)
    have h5 : r.ret = 3 := by rw [h2]; decide
    refine ⟨r, h1, h5, by rw [h3, h5], ?_⟩
    intro a ha
    rcases h4 a ha with h | h
    · exact h.2
    · exact absurd h.1 (by decide)
  · obtain ⟨r, h1, h2, h3, _⟩ := GetIPList_returns_min thread35 _ 10 db35 2 true true
      rand35 8 rfl (by decide) (by decide) (by decide) (by decide) (by decide)
    have h5 : r.ret = 2 := by rw [h2]; decide
    exact ⟨r, h1, h5, by rw [h3, h5]⟩

/-- C8. `GetIPList` samples without replacement by exchanging each drawn
entry with the entry at the front index: under the hypotheses of a
consistent cache `t.cache` (as the refresh check left it) and `max >= 0`,
the call returns some `r` such that the cache afterwards is a rearrangement
of `t.cache` (same entries with the same multiplicities, same length), the
`n` entries of `addr` are the first `n` entries of the cache afterwards,
they are the entries of `t.cache` at the pairwise distinct positions `ps`,
and nothing else of the thread changes, in particular not `nIPv4` and
`nIPv6`. -/
theorem GetIPList_swaps_to_front (s t : CDnsThread) (now : Int)
    (GetIPs : Nat → Bool → Bool → List CNetAddr) (max : Int) (ipv4 ipv6 : Bool)
    (rand : Nat → Nat) (fuel : Nat)
    (ht : t = s.cacheHit false now GetIPs)
    (hc : Consistent t) (hlen : t.cache.length < 2147483648)
    (h0 : 0 ≤ max) (h1 : max < 2147483648) (hfuel : t.cache.length ≤ fuel) :
    ∃ r, GetIPList fuel s now GetIPs max ipv4 ipv6 rand = .ok r ∧
      r.thread.cache.Perm t.cache ∧
      r.thread.cache.length = t.cache.length ∧
      (r.addr.length : Int) = r.ret ∧
      r.addr = r.thread.cache.take r.addr.length ∧
      (∀ (k : Nat) (a : addr_t), r.addr[k]? = some a → r.thread.cache[k]? = some a) ∧
      (∃ ps : List Nat, ps.Nodup ∧ ps.length = r.addr.length ∧
        r.addr.map some = ps.map (fun p => t.cache[p]?)) ∧
      r.thread.nIPv4 = t.nIPv4 ∧ r.thread.nIPv6 = t.nIPv6 ∧
      r.thread = { t with cache := r.thread.cache } := by
  obtain ⟨cache1, addr, ps, hrun, hl, _, hperm, hfront, hnd, hmap⟩ :=
    sampleCache_spec t max ipv4 ipv6 rand fuel hc hlen h0 h1 hfuel
  refine ⟨_, by unfold GetIPList; rw [← ht]; exact hrun, hperm, hperm.length_eq, hl, hfront,
    ?_, ⟨ps, hnd, ?_, hmap⟩, rfl, rfl, rfl⟩
  · intro k a hk
    show cache1[k]? = some a
    have hk2 : addr[k]? = some a := hk
    rw [hfront, List.getElem?_take] at hk2
    split at hk2
    · exact hk2
    · exact absurd hk2 (by simp)
  · have := congrArg List.length hmap
    simpa using this.symm

/-- An instance of C8 on the cache of 3 IPv4 and 5 IPv6 entries. -/
theorem GetIPList_swaps_to_front_witness :
    Consistent (thread35.cacheHit false 10 db35) ∧
    ∃ r, GetIPList 8 thread35 10 db35 2 true true rand35 = .ok r ∧
      r.thread.cache.Perm (thread35.cacheHit false 10 db35).cache ∧
      r.thread.cache.length = 8 ∧ r.addr = r.thread.cache.take r.addr.length ∧
      r.thread.nIPv4 = 3 ∧ r.thread.nIPv6 = 5 := by
  refine ⟨by decide, ?_⟩
  obtain ⟨r, h1, h2, h3, _, h5, _, _, h7, h8, _⟩ :=
    GetIPList_swaps_to_front thread35 _ 10 db35 2 true true rand35 8 rfl
      (by decide) (by decide) (by decide) (by decide) (by decide)
  exact ⟨r, h1, h2, by rw [h3]; decide, h5, by rw [h7]; decide, by rw [h8]; decide⟩

/-- C9. `GetIPList` terminates and stays inside the cache when the family
counters are consistent: with `t` the thread as the refresh check left it,
`max >= 0` and fuel for one round of the cache, the call returns; and for
every outer step `i < n` the loop reaches that step with some cache `c`, the
divisor `size - i` is positive, the start index `j0` lies in `[i, size)`, an
entry of a requested family is left in `c[i..size)`, and the wrap-around
scan from `j0` stops within `size - i` probes at an index `j` in `[i, size)`
holding an entry of a requested family. -/
theorem GetIPList_terminates_in_bounds (s t : CDnsThread) (now : Int)
    (GetIPs : Nat → Bool → Bool → List CNetAddr) (max : Int) (ipv4 ipv6 : Bool)
    (rand : Nat → Nat) (fuel : Nat)
    (ht : t = s.cacheHit false now GetIPs)
    (hc : Consistent t) (hlen : t.cache.length < 2147483648)
    (h0 : 0 ≤ max) (h1 : max < 2147483648) (hfuel : t.cache.length ≤ fuel) :
    (∃ r, GetIPList fuel s now GetIPs max ipv4 ipv6 rand = .ok r ∧
      r.ret = clampMax t max ipv4 ipv6) ∧
    ∀ i : Nat, (i : Int) < clampMax t max ipv4 ipv6 →
      ∃ cur addr : List addr_t,
        drawLoop fuel t.cache.length ipv4 ipv6 rand i 0 t.cache [] = .ok (cur, addr) ∧
        0 < t.cache.length - i ∧
        ∃ j0 : Nat, startIndex t.cache.length i (rand i) = .ok j0 ∧ i ≤ j0 ∧
          j0 < t.cache.length ∧
          (∃ (m : Nat) (a : addr_t), i ≤ m ∧ m < t.cache.length ∧ cur[m]? = some a ∧
            requested ipv4 ipv6 a = true) ∧
          ∃ (j : Nat) (a : addr_t),
            scan cur t.cache.length i ipv4 ipv6 (t.cache.length - i) j0 = .ok j ∧
            i ≤ j ∧ j < t.cache.length ∧ cur[j]? = some a ∧ requested ipv4 ipv6 a = true := by
  have hn := clampMax_eq hc hlen max h0 h1 ipv4 ipv6
  constructor
  · obtain ⟨cache1, addr, ps, hrun, _⟩ :=
      sampleCache_spec t max ipv4 ipv6 rand fuel hc hlen h0 h1 hfuel
    exact ⟨_, by unfold GetIPList; rw [← ht]; exact hrun, hn.symm⟩
  · intro i hi
    rw [hn] at hi
    have hlt : i < t.cache.countP (requested ipv4 ipv6) := by
      rw [← wanted_eq_countP hc]; omega
    obtain ⟨cur, addr, pos, hrun, inv⟩ :=
      drawLoop_ok t.cache ipv4 ipv6 rand fuel hfuel i 0 t.cache [] _
        (LoopInv.start t.cache ipv4 ipv6) (by omega)
    rw [Nat.zero_add] at inv
    obtain ⟨hpos, hstart, hj0, j, a, _, _, hij, hj, hja, hpa, hscan, _, _, _⟩ :=
      inv.step hlt fuel (by omega) (rand i)
    exact ⟨cur, addr, hrun, hpos, _, hstart, by omega, hj0, inv.exists_left hlt,
      j, a, hscan, hij, hj, hja, hpa⟩

/-- An instance of C9 on the cache of 3 IPv4 and 5 IPv6 entries, drawing the
3 IPv4 entries: the call returns 3, and the last of its three outer steps
(`i = 2`) finds its entry within `8 - 2` probes. -/
theorem GetIPList_terminates_in_bounds_witness :
    Consistent (thread35.cacheHit false 10 db35) ∧
    (∃ r, GetIPList 8 thread35 10 db35 10 true false rand35 = .ok r ∧ r.ret = 3) ∧
    ∃ cur addr : List addr_t,
      drawLoop 8 8 true false rand35 2 0 (thread35.cacheHit false 10 db35).cache []
        = .ok (cur, addr) ∧
      ∃ j0 j : Nat, startIndex 8 2 (rand35 2) = .ok j0 ∧
        scan cur 8 2 true false (8 - 2) j0 = .ok j := by
  obtain ⟨⟨r, h1, h2⟩, h3⟩ :=
    GetIPList_terminates_in_bounds thread35 _ 10 db35 10 true false rand35 8 rfl
      (by decide) (by decide) (by decide) (by decide) (by decide)
  refine ⟨by decide, ⟨r, h1, by rw [h2]; decide⟩, ?_⟩
  have h4 : clampMax (thread35.cacheHit false 10 db35) 10 true false = 3 := by decide
  obtain ⟨cur, addr, hrun, _, j0, hs, _, _, _, j, _, hscan, _⟩ := h3 2 (by rw [h4]; decide)
  exact ⟨cur, addr, hrun, j0, j, hs, hscan⟩

/-! ## Claims on `cacheHit` and on the reachable states -/

/-- C2. `cacheHit` refreshes the cache if and only if one of the three
stated conditions holds.  For a thread whose hit counter and cache size are
in the range where the C++ arithmetic does not wrap (`cacheHits + 1 < 2^16`,
`cache.size() < 2^32`; every state the program reaches while `GetIPs`
honours its limit of 1000 is, see `reachableLimited_inRange`), with
`h = cacheHits + 1` and `s = cache.size()`: the test of the `if` is true iff
`force`, or `h > s*s/400`, or `h*h > s/20` and `now - cacheTime > 5`; when it
is, the cache is rebuilt from `GetIPs(1000, v4 and v6)`, the counters count
the rebuilt cache, `cacheHits` is 0, `cacheTime` is `now` and one more
database query is counted; when it is not, only `cacheHits` changes, to
`h`. -/
theorem cacheHit_refresh_iff (s : CDnsThread) (force : Bool) (now : Int)
    (GetIPs : Nat → Bool → Bool → List CNetAddr)
    (hhits : s.cacheHits + 1 < 65536) (hsize : s.cache.length < 4294967296) :
    (refreshDue force ((s.cacheHits + 1) % 4294967296)
        (s.cache.length % 18446744073709551616) now s.cacheTime = true ↔
      specRefresh force (s.cacheHits + 1) s.cache.length (now - s.cacheTime)) ∧
    (specRefresh force (s.cacheHits + 1) s.cache.length (now - s.cacheTime) →
      (s.cacheHit force now GetIPs).cache = (GetIPs 1000 true true).filterMap toAddr ∧
      Consistent (s.cacheHit force now GetIPs) ∧
      (s.cacheHit force now GetIPs).cacheHits = 0 ∧
      (s.cacheHit force now GetIPs).cacheTime = now ∧
      (s.cacheHit force now GetIPs).dbQueries = (s.dbQueries + 1) % 18446744073709551616) ∧
    (¬ specRefresh force (s.cacheHits + 1) s.cache.length (now - s.cacheTime) →
      s.cacheHit force now GetIPs = { s with cacheHits := s.cacheHits + 1 }) := by
  have hh : (s.cacheHits + 1) % 4294967296 = s.cacheHits + 1 := Nat.mod_eq_of_lt (by omega)
  have hs : s.cache.length % 18446744073709551616 = s.cache.length :=
    Nat.mod_eq_of_lt (by omega)
  have hss : s.cache.length * s.cache.length % 18446744073709551616 =
      s.cache.length * s.cache.length := by
    apply Nat.mod_eq_of_lt
    have : s.cache.length * s.cache.length ≤ 4294967295 * 4294967295 :=
      Nat.mul_le_mul (by omega) (by omega)
    omega
  have hhh : (s.cacheHits + 1) * (s.cacheHits + 1) % 4294967296 =
      (s.cacheHits + 1) * (s.cacheHits + 1) := by
    apply Nat.mod_eq_of_lt
    have : (s.cacheHits + 1) * (s.cacheHits + 1) ≤ 65535 * 65535 :=
      Nat.mul_le_mul (by omega) (by omega)
    omega
  have hiff : refreshDue force ((s.cacheHits + 1) % 4294967296)
        (s.cache.length % 18446744073709551616) now s.cacheTime = true ↔
      specRefresh force (s.cacheHits + 1) s.cache.length (now - s.cacheTime) := by
    unfold refreshDue specRefresh
    rw [hh, hs, hss, hhh]
    simp only [Bool.or_eq_true, Bool.and_eq_true, decide_eq_true_eq, or_assoc]
  refine ⟨hiff, ?_, ?_⟩
  · intro hc
    have hd := hiff.2 hc
    have he : s.cacheHit force now GetIPs =
        { (GetIPs 1000 true true).foldl rebuildStep
            { s with cacheHits := (s.cacheHits + 1) % 4294967296,
                     dbQueries := (s.dbQueries + 1) % 18446744073709551616,
                     cache := [], nIPv4 := 0, nIPv6 := 0 } with
          cacheHits := 0, cacheTime := now } := by
      unfold CDnsThread.cacheHit
      simp only [hd, if_true]
    refine ⟨?_, ?_, ?_, ?_, ?_⟩
    · rw [he]
      simp only [foldl_rebuildStep_cache, List.nil_append]
    · rw [he]
      exact (foldl_rebuildStep_inv (GetIPs 1000 true true) _
        ⟨by simp, by simp [Consistent]⟩).2
    · rw [he]
    · rw [he]
    · rw [he]
      simp only [(foldl_rebuildStep_rest _ _).2.2]
  · intro hc
    have hd : ¬ refreshDue force ((s.cacheHits + 1) % 4294967296)
        (s.cache.length % 18446744073709551616) now s.cacheTime = true :=
      fun h => hc (hiff.1 h)
    rw [hh] at hd
    unfold CDnsThread.cacheHit
    simp only [hh]
    rw [if_neg hd]

/-- Two instances of C2 on a cache of 100 entries with 2 earlier hits: 3
seconds after the fill the call only counts the hit, 6 seconds after it the
cache is refreshed. -/
theorem cacheHit_refresh_iff_witness :
    thread100.cacheHits + 1 < 65536 ∧ thread100.cache.length < 4294967296 ∧
    ¬ specRefresh false 3 100 (1003 - 1000) ∧
    thread100.cacheHit false 1003 db35 = { thread100 with cacheHits := 3 } ∧
    specRefresh false 3 100 (1006 - 1000) ∧
    (thread100.cacheHit false 1006 db35).cache.length = 8 ∧
    (thread100.cacheHit false 1006 db35).cacheHits = 0 ∧
    (thread100.cacheHit false 1006 db35).cacheTime = 1006 := by
  have h3 : ¬ specRefresh false 3 100 (1003 - 1000) := by decide
  have h6 : specRefresh false 3 100 (1006 - 1000) := by decide
  have ha := (cacheHit_refresh_iff thread100 false 1003 db35 (by decide) (by decide)).2.2 h3
  obtain ⟨hb, _, hc, hd, _⟩ :=
    (cacheHit_refresh_iff thread100 false 1006 db35 (by decide) (by decide)).2.1 h6
  exact ⟨by decide, by decide, h3, ha, h6, by rw [hb]; decide, hc, hd⟩

/-- C10. The family counters of the DNS cache always match its contents: in
every state reachable from the constructor by calls of `cacheHit` and of
`GetIPList` with `max >= 0`, every cache entry has `v` equal to 4 or 6,
`nIPv4` is the number of entries with `v == 4`, `nIPv6` the number with
`v == 6`, and `nIPv4 + nIPv6` is `cache.size()`. -/
theorem reachable_counters_match (s : CDnsThread) (h : Reachable s) :
    (∀ a ∈ s.cache, a.v = 4 ∨ a.v = 6) ∧
    s.nIPv4 = s.cache.countP (fun a => decide (a.v = 4)) ∧
    s.nIPv6 = s.cache.countP (fun a => decide (a.v = 6)) ∧
    s.nIPv4 + s.nIPv6 = s.cache.length := by
  obtain ⟨hv, h4, h6⟩ := reachable_inv s h
  refine ⟨hv, h4, h6, ?_⟩
  rw [h4, h6]
  exact countP_four_add_six s.cache hv

/-- An instance of C10: the state after the constructor and one call of
`GetIPList`. -/
theorem reachable_counters_match_witness :
    Reachable result35.thread ∧
    (∀ a ∈ result35.thread.cache, a.v = 4 ∨ a.v = 6) ∧
    result35.thread.nIPv4 = result35.thread.cache.countP (fun a => decide (a.v = 4)) ∧
    result35.thread.nIPv6 = result35.thread.cache.countP (fun a => decide (a.v = 6)) ∧
    result35.thread.nIPv4 + result35.thread.nIPv6 = result35.thread.cache.length :=
  have hr : Reachable result35.thread :=
    Reachable.getIPList thread35 8 10 db35 2 true true rand35 result35
      (Reachable.init 0 db35) (by decide) rfl
  ⟨hr, reachable_counters_match result35.thread hr⟩

/-! ## Claims on the dump order, the dumper schedule and the command line -/

/-- C3. `StatCompare` implements the stated report order: `StatCompare(a, b)`
is true iff the key `(uptime[4], uptime[3], clientVersion)` of `a` is
strictly greater than that of `b` in the lexicographic order, that is, iff
`a` has the greater 30-day uptime, or the same and the greater 7-day uptime,
or both the same and the greater `clientVersion`; two reports with equal
keys compare false both ways. -/
theorem StatCompare_lex_order {U : Type} [LinearOrder U] (a b : CAddrReport U) :
    (StatCompare a b = true ↔ reportKey b < reportKey a) ∧
    (StatCompare a b = true ↔
      b.uptime 4 < a.uptime 4 ∨
      (b.uptime 4 = a.uptime 4 ∧
        (b.uptime 3 < a.uptime 3 ∨
          (b.uptime 3 = a.uptime 3 ∧ b.clientVersion < a.clientVersion)))) ∧
    (reportKey a = reportKey b → StatCompare a b = false ∧ StatCompare b a = false) := by
  have hexp : StatCompare a b = true ↔
      b.uptime 4 < a.uptime 4 ∨
      (b.uptime 4 = a.uptime 4 ∧
        (b.uptime 3 < a.uptime 3 ∨
          (b.uptime 3 = a.uptime 3 ∧ b.clientVersion < a.clientVersion))) := by
    unfold StatCompare
    by_cases h4 : a.uptime 4 = b.uptime 4
    · by_cases h3 : a.uptime 3 = b.uptime 3
      · simp [h4, h3]
      · have h3b : ¬ b.uptime 3 = a.uptime 3 := fun h => h3 h.symm
        simp [h4, h3, h3b]
    · have h4b : ¬ b.uptime 4 = a.uptime 4 := fun h => h4 h.symm
      simp [h4, h4b]
  have hkey : reportKey b < reportKey a ↔
      b.uptime 4 < a.uptime 4 ∨
      (b.uptime 4 = a.uptime 4 ∧
        (b.uptime 3 < a.uptime 3 ∨
          (b.uptime 3 = a.uptime 3 ∧ b.clientVersion < a.clientVersion))) := by
    unfold reportKey
    rw [Prod.Lex.lt_iff]
    simp only [Prod.Lex.lt_iff]
  refine ⟨hexp.trans hkey.symm, hexp, ?_⟩
  intro he
  have hirr : ¬ reportKey b < reportKey a := by rw [he]; exact lt_irrefl _
  have hirr2 : ¬ reportKey a < reportKey b := by rw [he]; exact lt_irrefl _
  have hexp2 : StatCompare b a = true ↔ reportKey a < reportKey b := by
    unfold StatCompare reportKey
    rw [Prod.Lex.lt_iff]
    simp only [Prod.Lex.lt_iff]
    by_cases h4 : b.uptime 4 = a.uptime 4
    · by_cases h3 : b.uptime 3 = a.uptime 3
      · simp [h4, h3]
      · have h3b : ¬ a.uptime 3 = b.uptime 3 := fun h => h3 h.symm
        simp [h4, h3, h3b]
    · have h4b : ¬ a.uptime 4 = b.uptime 4 := fun h => h4 h.symm
      simp [h4, h4b]
  constructor
  · cases hs : StatCompare a b with
    | false => rfl
    | true => exact absurd ((hexp.trans hkey.symm).1 hs) hirr
  · cases hs : StatCompare b a with
    | false => rfl
    | true => exact absurd (hexp2.1 hs) hirr2

/-- An instance of C3: of two reports that agree on both uptimes the one
with the greater client version comes first, and a report does not come
before a report with the same key. -/
theorem StatCompare_lex_order_witness :
    reportKey (report 70015) = reportKey (report 70015) ∧
    StatCompare (report 70015) (report 70015) = false ∧
    StatCompare (report 70015) (report 70014) = true ∧
    StatCompare (report 70014) (report 70015) = false := by
  have h := (StatCompare_lex_order (report 70015) (report 70015)).2.2 rfl
  have h2 := (StatCompare_lex_order (report 70015) (report 70014)).2.1
  have h3 := (StatCompare_lex_order (report 70014) (report 70015)).2.1
  refine ⟨rfl, h.1, h2.2 (Or.inr ⟨rfl, Or.inr ⟨rfl, by decide⟩⟩), ?_⟩
  cases hs : StatCompare (report 70014) (report 70015) with
  | false => rfl
  | true =>
    rcases h3.1 hs with h4 | ⟨_, h4 | ⟨_, h4⟩⟩
    · exact absurd h4 (lt_irrefl _)
    · exact absurd h4 (lt_irrefl _)
    · exact absurd h4 (by decide)

theorem ThreadDumper_count_eq (k : Nat) : ThreadDumper_count k = ((min k 5 : Nat) : Int) := by
  induction k with
  | zero => rfl
  | succ k ih =>
    unfold ThreadDumper_count ThreadDumper_next
    rw [ih]
    by_cases h : k < 5
    · have h1 : min k 5 = k := by omega
      have h2 : min (k + 1) 5 = k + 1 := by omega
      rw [h1, h2]
      have : ((k : Nat) : Int) < 5 := by omega
      rw [if_pos this]
      push_cast
      rfl
    · have h1 : min k 5 = 5 := by omega
      have h2 : min (k + 1) 5 = 5 := by omega
      rw [h1, h2]
      rfl

/-- C4. The sleep schedule of the dumper thread is 100 s, 200 s, 400 s,
800 s, 1600 s, then 3200 s forever: the sleep that opens cycle `k` of the
loop (counted from 0) lasts `100000 * 2^min(k, 5)` milliseconds, which is at
most 3200000 and so fits the `int` it is computed in, and the shift count
stays between 0 and 5. -/
theorem ThreadDumper_sleep_schedule (k : Nat) :
    ThreadDumper_sleep (ThreadDumper_count k) = 100000 * 2 ^ (min k 5) ∧
    ThreadDumper_sleep (ThreadDumper_count k) ≤ 3200000 ∧
    0 ≤ ThreadDumper_count k ∧ ThreadDumper_count k ≤ 5 ∧
    (List.range 7).map (fun c => ThreadDumper_sleep (ThreadDumper_count c)) =
      [100000, 200000, 400000, 800000, 1600000, 3200000, 3200000] := by
  rw [ThreadDumper_count_eq]
  have hs : ThreadDumper_sleep ((min k 5 : Nat) : Int) = 100000 * 2 ^ (min k 5) := by
    unfold ThreadDumper_sleep
    rw [Int.toNat_ofNat, Nat.shiftLeft_eq]
    push_cast
    rfl
  refine ⟨hs, ?_, by omega, by omega, by decide⟩
  rw [hs]
  have h5 : min k 5 ≤ 5 := Nat.min_le_right k 5
  have hp : (2 : Int) ^ (min k 5) ≤ 2 ^ 5 := pow_le_pow_right₀ (by norm_num) h5
  have h32 : (2 : Int) ^ 5 = 32 := by norm_num
  omega

/-! ## The command-line parser -/

theorem chr_values :
    chr 'h' = 104 ∧ chr 'm' = 109 ∧ chr 'n' = 110 ∧ chr 't' = 116 ∧ chr 'd' = 100 ∧
    chr 'p' = 112 ∧ chr 'o' = 111 ∧ chr 'i' = 105 ∧ chr 'k' = 107 ∧ chr '?' = 63 := by
  decide

theorem storeFlag_nThreads (o : CDnsSeedOpts) (f : FlagVar) (v : Int) :
    (storeFlag o f v).nThreads = o.nThreads := by
  cases f <;> rfl

/-- The value returned by `getopt_long` and `optarg` do not depend on the
options, and the store through `flag` leaves `nThreads` alone. -/
theorem getopt_long_parts (o : CDnsSeedOpts) (g : GetoptFind) :
    (getopt_long o g).1 = findCode g ∧
    (getopt_long o g).2.1 = (getopt_long CDnsSeedOpts.default g).2.1 ∧
    (getopt_long o g).2.2.nThreads = o.nThreads := by
  unfold findCode
  cases g with
  | shortOpt c optarg => exact ⟨rfl, rfl, rfl⟩
  | rejected => exact ⟨rfl, rfl, rfl⟩
  | longOpt index optarg =>
    simp only [getopt_long]
    cases long_options[index.val]? with
    | none => exact ⟨rfl, rfl, rfl⟩
    | some entry =>
      obtain ⟨name, has_arg, flag, val⟩ := entry
      cases flag with
      | none => exact ⟨rfl, rfl, rfl⟩
      | some f => exact ⟨rfl, rfl, storeFlag_nThreads o f val⟩

theorem switchOn_showHelp (strtol : String → Int) (b : Bool) (c : Int) (optarg : String)
    (o : CDnsSeedOpts) :
    (switchOn strtol b c optarg o).showHelp = (b || decide (c = chr '?')) := by
  obtain ⟨e1, e2, e3, e4, e5, e6, e7, e8, e9, e10⟩ := chr_values
  unfold switchOn
  rw [e1, e2, e3, e4, e5, e6, e7, e8, e9, e10]
  by_cases h0 : c = 104
  · rw [if_pos h0]
    have hq : ¬ c = 63 := by omega
    simp [hq]
  rw [if_neg h0]
  by_cases h1 : c = 109
  · rw [if_pos h1]
    have hq : ¬ c = 63 := by omega
    simp [hq]
  rw [if_neg h1]
  by_cases h2 : c = 110
  · rw [if_pos h2]
    have hq : ¬ c = 63 := by omega
    simp [hq]
  rw [if_neg h2]
  by_cases h3 : c = 116
  · rw [if_pos h3]
    have hq : ¬ c = 63 := by omega
    simp only
    split <;> simp [hq]
  rw [if_neg h3]
  by_cases h4 : c = 100
  · rw [if_pos h4]
    have hq : ¬ c = 63 := by omega
    simp only
    split <;> simp [hq]
  rw [if_neg h4]
  by_cases h5 : c = 112
  · rw [if_pos h5]
    have hq : ¬ c = 63 := by omega
    simp only
    split <;> simp [hq]
  rw [if_neg h5]
  by_cases h6 : c = 111
  · rw [if_pos h6]
    have hq : ¬ c = 63 := by omega
    simp [hq]
  rw [if_neg h6]
  by_cases h7 : c = 105
  · rw [if_pos h7]
    have hq : ¬ c = 63 := by omega
    simp [hq]
  rw [if_neg h7]
  by_cases h8 : c = 107
  · rw [if_pos h8]
    have hq : ¬ c = 63 := by omega
    simp [hq]
  rw [if_neg h8]
  by_cases hq : c = 63
  · rw [if_pos hq]; simp [hq]
  · rw [if_neg hq]; simp [hq]

theorem switchOn_nThreads (strtol : String → Int) (b : Bool) (c : Int) (optarg : String)
    (o : CDnsSeedOpts) :
    (switchOn strtol b c optarg o).opts.nThreads =
      if c = chr 't' ∧ toInt32 (strtol optarg) > 0 ∧ toInt32 (strtol optarg) < 1000 then
        toInt32 (strtol optarg)
      else o.nThreads := by
  obtain ⟨e1, e2, e3, e4, e5, e6, e7, e8, e9, e10⟩ := chr_values
  unfold switchOn
  rw [e1, e2, e3, e4, e5, e6, e7, e8, e9, e10]
  by_cases h0 : c = 104
  · rw [if_pos h0]
    have ht : ¬ c = 116 := by omega
    simp [ht]
  rw [if_neg h0]
  by_cases h1 : c = 109
  · rw [if_pos h1]
    have ht : ¬ c = 116 := by omega
    simp [ht]
  rw [if_neg h1]
  by_cases h2 : c = 110
  · rw [if_pos h2]
    have ht : ¬ c = 116 := by omega
    simp [ht]
  rw [if_neg h2]
  by_cases h3 : c = 116
  · rw [if_pos h3]
    simp only [h3, true_and]
    split <;> rfl
  rw [if_neg h3]
  by_cases h4 : c = 100
  · rw [if_pos h4]
    have ht : ¬ c = 116 := by omega
    simp only
    split <;> simp [ht]
  rw [if_neg h4]
  by_cases h5 : c = 112
  · rw [if_pos h5]
    have ht : ¬ c = 116 := by omega
    simp only
    split <;> simp [ht]
  rw [if_neg h5]
  by_cases h6 : c = 111
  · rw [if_pos h6]
    have ht : ¬ c = 116 := by omega
    simp [ht]
  rw [if_neg h6]
  by_cases h7 : c = 105
  · rw [if_pos h7]
    have ht : ¬ c = 116 := by omega
    simp [ht]
  rw [if_neg h7]
  by_cases h8 : c = 107
  · rw [if_pos h8]
    have ht : ¬ c = 116 := by omega
    simp [ht]
  rw [if_neg h8]
  split <;> simp [h3]

theorem parseStep_showHelp (strtol : String → Int) (st : ParseState) (g : GetoptFind) :
    (parseStep strtol st g).showHelp = (st.showHelp || decide (findCode g = chr '?')) := by
  unfold parseStep
  rw [switchOn_showHelp, (getopt_long_parts st.opts g).1]

theorem parseStep_nThreads (strtol : String → Int) (st : ParseState) (g : GetoptFind) :
    (parseStep strtol st g).opts.nThreads = (threadsSet strtol g).getD st.opts.nThreads := by
  obtain ⟨h1, h2, h3⟩ := getopt_long_parts st.opts g
  unfold parseStep threadsSet
  rw [switchOn_nThreads, h1, h2, h3]
  split_ifs <;> rfl

theorem foldl_parseStep_showHelp (strtol : String → Int) (finds : List GetoptFind) :
    ∀ st : ParseState, (finds.foldl (parseStep strtol) st).showHelp =
      (st.showHelp || finds.any (fun g => decide (findCode g = chr '?'))) := by
  induction finds with
  | nil => intro st; simp
  | cons g finds ih =>
    intro st
    rw [List.foldl_cons, ih, parseStep_showHelp, List.any_cons, Bool.or_assoc]

theorem threadsSet_range (strtol : String → Int) (g : GetoptFind) (n : Int)
    (h : threadsSet strtol g = some n) : 1 ≤ n ∧ n ≤ 999 := by
  unfold threadsSet at h
  split at h
  · rename_i hc
    have : toInt32 (strtol (getopt_long CDnsSeedOpts.default g).2.1) = n := by
      injection h
    rw [this] at hc
    omega
  · exact absurd h (by simp)

theorem foldl_parseStep_nThreads_range (strtol : String → Int) (finds : List GetoptFind) :
    ∀ st : ParseState, 1 ≤ st.opts.nThreads ∧ st.opts.nThreads ≤ 999 →
      1 ≤ (finds.foldl (parseStep strtol) st).opts.nThreads ∧
      (finds.foldl (parseStep strtol) st).opts.nThreads ≤ 999 := by
  induction finds with
  | nil => intro st h; exact h
  | cons g finds ih =>
    intro st h
    rw [List.foldl_cons]
    apply ih
    rw [parseStep_nThreads]
    cases hg : threadsSet strtol g with
    | none => exact h
    | some n => exact threadsSet_range strtol g n hg

theorem foldl_parseStep_nThreads_kept (strtol : String → Int) (finds : List GetoptFind) :
    ∀ st : ParseState, (∀ g ∈ finds, threadsSet strtol g = none) →
      (finds.foldl (parseStep strtol) st).opts.nThreads = st.opts.nThreads := by
  induction finds with
  | nil => intro st _; rfl
  | cons g finds ih =>
    intro st h
    rw [List.foldl_cons, ih _ (fun g2 hg2 => h g2 (List.mem_cons_of_mem g hg2)),
      parseStep_nThreads, h g (List.mem_cons_self g finds)]
    rfl

theorem ParseCommandLine_opts (strtol : String → Int) (o : CDnsSeedOpts)
    (finds : List GetoptFind) :
    (ParseCommandLine strtol o finds).opts =
      (finds.foldl (parseStep strtol) { opts := o, showHelp := false }).opts := by
  unfold ParseCommandLine
  simp only
  split
  · rfl
  · split <;> rfl

/-- C5. A crawler that finds the schedule queue empty sleeps 5000 ms plus a
random amount below `500 * nThreads` ms: for every command line the
`nThreads` left by `ParseCommandLine` lies in 1..999 (and is 96 when no
`-t` with a value in that range is given), so the modulus `500 * nThreads`
is not zero, and for every non-negative value `r` of `rand()` the pass
consists of the call of `GetMany` and of `Sleep(w)` with
`w = 5000 + r % (500 * nThreads)` exactly, so that
`5000 <= w < 5000 + 500 * nThreads`: no probe, no `ResultMany`, no `Add`.
The added amount is `r` itself for every `r` below the modulus, so each
amount from 0 up to `500 * nThreads - 1` occurs. -/
theorem crawler_idle_sleep (strtol : String → Int) (finds : List GetoptFind)
    (now r : Int) (hr : 0 ≤ r) :
    1 ≤ (ParseCommandLine strtol CDnsSeedOpts.default finds).opts.nThreads ∧
    (ParseCommandLine strtol CDnsSeedOpts.default finds).opts.nThreads ≤ 999 ∧
    ((∀ g ∈ finds, threadsSet strtol g = none) →
      (ParseCommandLine strtol CDnsSeedOpts.default finds).opts.nThreads = 96) ∧
    500 * (ParseCommandLine strtol CDnsSeedOpts.default finds).opts.nThreads ≠ 0 ∧
    ThreadCrawler_wait (ParseCommandLine strtol CDnsSeedOpts.default finds).opts.nThreads r =
      .ok (5000 + r %
        (500 * (ParseCommandLine strtol CDnsSeedOpts.default finds).opts.nThreads)) ∧
    ThreadCrawler_pass (ParseCommandLine strtol CDnsSeedOpts.default finds).opts.nThreads
        [] now r =
      .ok [CrawlerCall.GetMany 16 5,
        CrawlerCall.Sleep (5000 + r %
          (500 * (ParseCommandLine strtol CDnsSeedOpts.default finds).opts.nThreads))] ∧
    5000 ≤ 5000 + r %
      (500 * (ParseCommandLine strtol CDnsSeedOpts.default finds).opts.nThreads) ∧
    5000 + r % (500 * (ParseCommandLine strtol CDnsSeedOpts.default finds).opts.nThreads) <
      5000 + 500 * (ParseCommandLine strtol CDnsSeedOpts.default finds).opts.nThreads ∧
    (r < 500 * (ParseCommandLine strtol CDnsSeedOpts.default finds).opts.nThreads →
      ThreadCrawler_pass (ParseCommandLine strtol CDnsSeedOpts.default finds).opts.nThreads
          [] now r =
        .ok [CrawlerCall.GetMany 16 5, CrawlerCall.Sleep (5000 + r)]) := by
  rw [ParseCommandLine_opts]
  obtain ⟨h1, h2⟩ := foldl_parseStep_nThreads_range strtol finds
    { opts := CDnsSeedOpts.default, showHelp := false } (by decide)
  have hkept := foldl_parseStep_nThreads_kept strtol finds
    { opts := CDnsSeedOpts.default, showHelp := false }
  generalize (finds.foldl (parseStep strtol)
    { opts := CDnsSeedOpts.default, showHelp := false }).opts.nThreads = n at h1 h2 hkept
  have hne : ¬ 500 * n = 0 := by omega
  have hmod : r.tmod (500 * n) = r % (500 * n) := Int.tmod_eq_emod hr (by omega)
  have hlo : 0 ≤ r % (500 * n) := Int.emod_nonneg r hne
  have hhi : r % (500 * n) < 500 * n := Int.emod_lt_of_pos r (by omega)
  have hwait : ThreadCrawler_wait n r = .ok (5000 + r % (500 * n)) := by
    unfold ThreadCrawler_wait
    rw [if_neg hne, hmod]
    rfl
  have hpass : ThreadCrawler_pass n [] now r =
      .ok [CrawlerCall.GetMany 16 5, CrawlerCall.Sleep (5000 + r % (500 * n))] := by
    unfold ThreadCrawler_pass
    rw [hwait]
    rfl
  refine ⟨h1, h2, fun h => hkept h, by omega, hwait, hpass, by omega, by omega, ?_⟩
  intro hlt
  rw [hpass, Int.emod_eq_of_lt hr hlt]

/-- An instance of C5: with `-t 12` the modulus is 6000, and for the value
12345678 of `rand()` the crawler sleeps `5000 + 12345678 % 6000 = 8678` ms;
for the value 4321, below the modulus, it sleeps 9321 ms. -/
theorem crawler_idle_sleep_witness :
    (0 : Int) ≤ 12345678 ∧
    (ParseCommandLine (fun _ => 12) CDnsSeedOpts.default
      [GetoptFind.shortOpt 't' "12"]).opts.nThreads = 12 ∧
    ThreadCrawler_wait 12 12345678 = .ok 8678 ∧
    ThreadCrawler_pass 12 [] 0 12345678 =
      .ok [CrawlerCall.GetMany 16 5, CrawlerCall.Sleep 8678] ∧
    ThreadCrawler_pass 12 [] 0 4321 =
      .ok [CrawlerCall.GetMany 16 5, CrawlerCall.Sleep 9321] := by
  have hn : (ParseCommandLine (fun _ => 12) CDnsSeedOpts.default
      [GetoptFind.shortOpt 't' "12"]).opts.nThreads = 12 := by decide
  obtain ⟨_, _, _, _, h1, h2, _, _, _⟩ :=
    crawler_idle_sleep (fun _ => 12) [GetoptFind.shortOpt 't' "12"] 0 12345678 (by decide)
  obtain ⟨_, _, _, _, _, _, _, _, h3⟩ :=
    crawler_idle_sleep (fun _ => 12) [GetoptFind.shortOpt 't' "12"] 0 4321 (by decide)
  rw [hn] at h1 h2 h3
  exact ⟨by decide, hn, h1, h2, h3 (by decide)⟩

/-- C6, as the code has it.  A command line with an element for which
`getopt_long` returns the code of `?` (an option it does not know, an option
whose required argument is missing, and also `-?` and `--help`) makes
`ParseCommandLine` print the usage text and call `exit(0)`: the exit status
is zero. -/
theorem ParseCommandLine_rejected_exits_zero (strtol : String → Int) (o : CDnsSeedOpts)
    (finds : List GetoptFind) (h : ∃ g ∈ finds, findCode g = chr '?') :
    (ParseCommandLine strtol o finds).usagePrinted = true ∧
    (ParseCommandLine strtol o finds).exitCode = some 0 := by
  have hs : (finds.foldl (parseStep strtol) { opts := o, showHelp := false }).showHelp
      = true := by
    rw [foldl_parseStep_showHelp]
    obtain ⟨g, hg, hc⟩ := h
    simp only [Bool.false_or, List.any_eq_true, decide_eq_true_eq]
    exact ⟨g, hg, hc⟩
  unfold ParseCommandLine
  simp only [hs, ite_self, if_true, and_self]

/-- An instance of the amended C6: a port option followed by a rejected
element. -/
theorem ParseCommandLine_rejected_exits_zero_witness :
    (∃ g ∈ [GetoptFind.shortOpt 'p' "5353", GetoptFind.rejected], findCode g = chr '?') ∧
    (ParseCommandLine (fun _ => 5353) CDnsSeedOpts.default
      [GetoptFind.shortOpt 'p' "5353", GetoptFind.rejected]).usagePrinted = true ∧
    (ParseCommandLine (fun _ => 5353) CDnsSeedOpts.default
      [GetoptFind.shortOpt 'p' "5353", GetoptFind.rejected]).exitCode = some 0 :=
  ⟨⟨GetoptFind.rejected, by simp, by decide⟩,
    ParseCommandLine_rejected_exits_zero (fun _ => 5353) CDnsSeedOpts.default
      [GetoptFind.shortOpt 'p' "5353", GetoptFind.rejected]
      ⟨GetoptFind.rejected, by simp, by decide⟩⟩

/-- C6 as stated fails: on the command line whose only element is an option
`getopt_long` rejects, `ParseCommandLine` prints the usage text but the
status it passes to `exit` is 0, so there is no non-zero exit status. -/
theorem ParseCommandLine_rejected_not_nonzero :
    findCode GetoptFind.rejected = chr '?' ∧
    (ParseCommandLine (fun _ => 0) CDnsSeedOpts.default [GetoptFind.rejected]).usagePrinted
      = true ∧
    ¬ ∃ c : Int, c ≠ 0 ∧
      (ParseCommandLine (fun _ => 0) CDnsSeedOpts.default [GetoptFind.rejected]).exitCode
        = some c := by
  refine ⟨by decide, by decide, ?_⟩
  rintro ⟨c, hc, h⟩
  have h0 : (ParseCommandLine (fun _ => 0) CDnsSeedOpts.default
      [GetoptFind.rejected]).exitCode = some 0 := by decide
  rw [h0] at h
  exact hc (Option.some.inj h).symm

/-- C7 fails on the code: for the command line `--wipeignore`, which
`getopt_long` matches to `long_options[11]`, `ParseCommandLine` returns with
`fWipeBan` set to 1 and `fWipeIgnore` still 0, so that `main` clears the ban
list and does not call `ResetIgnores`. -/
theorem wipeignore_sets_fWipeBan :
    (long_options[11]?).map (fun e => e.name) = some "wipeignore" ∧
    (ParseCommandLine (fun _ => 0) CDnsSeedOpts.default
      [GetoptFind.longOpt 11 ""]).exitCode = none ∧
    (ParseCommandLine (fun _ => 0) CDnsSeedOpts.default
      [GetoptFind.longOpt 11 ""]).opts.fWipeIgnore = 0 ∧
    (ParseCommandLine (fun _ => 0) CDnsSeedOpts.default
      [GetoptFind.longOpt 11 ""]).opts.fWipeBan = 1 ∧
    main_wipe (ParseCommandLine (fun _ => 0) CDnsSeedOpts.default
      [GetoptFind.longOpt 11 ""]).opts = [DbCall.clearBanned] := by
  refine ⟨by decide, by decide, by decide, by decide, by decide⟩

end PACSeeder
